import Mathlib

/-!
Verification of the `inventhouse/statemachine` repository.

This file gives a shallow embedding of the two state-machine engines of the
repository and of their tracing / checkpoint subsystem, and proves the
specification's claims about them:

* `src/smallmachine.py`: the `StateMachine` engine (`__call__`), the
  `statemachine` factory, `ContextTracer` (context collection, history deque
  and loop folding), `ErrorTracer` and the three error classes.
* `src/statemachine.py`: `StateMachineCore` (`add` / `input`), `build`, and
  `RecentTracer` (loop-compacted recent trace).

Python values that occur as states, inputs, responses and sentinels are
modelled by the inductive `PyVal`; the Ellipsis literal `...` (used by
`smallmachine.py` both as the wildcard rule key and as the stay sentinel) is
the constructor `PyVal.ellipsis`, and Python `None` (used by `statemachine.py`
both as the wildcard rule key and as the stay destination) is `PyVal.none`.
Rule tests / actions / destinations may be literals or callables; callables
are modelled as Lean functions (the embedding treats them as pure, as the
spec's hook contract assumes).  Python dicts keyed by states are modelled as
association lists preserving insertion order, and `collections.deque` with
`maxlen` is modelled by `dequeAppend`.  Where a tracer's output renders a
callable (Python would print an address-dependent `<function ...>` repr), the
embedding uses the fixed placeholder string `"<callable>"`; no claim depends
on those characters.
-/

/-- Python values relevant to the engines: `None`, the `...` (Ellipsis)
sentinel, strings, integers and booleans. -/
inductive PyVal where
  | none
  | ellipsis
  | str (s : String)
  | int (n : Int)
  | bool (b : Bool)
deriving DecidableEq, Repr

/-- Python `str()` of a `PyVal`, as used by `str.format` substitutions. -/
def pyStr : PyVal → String
  | .none => "None"
  | .ellipsis => "Ellipsis"
  | .str s => s
  | .int n => toString n
  | .bool true => "True"
  | .bool false => "False"

/-- Append to a `collections.deque` with the given `maxlen` (`none` means
unbounded): when the deque is full the oldest element is discarded. -/
def dequeAppend (maxlen : Option Nat) (l : List α) (x : α) : List α :=
  match maxlen with
  | Option.none => l ++ [x]
  | some k => (l ++ [x]).drop (l.length + 1 - k)

/-!  The `smallmachine.py` engine.  -/

/-- A rule test: a literal compared with the input by `==`, or a callable
called with the input, whose result is used for its truthiness
(`t(i) if callable(t) else t == i`). -/
inductive TestF where
  | lit (v : PyVal)
  | fn (f : PyVal → Bool)

/-- A rule action: a literal returned verbatim, or a callable called with the
input (`a(i) if callable(a) else a`). -/
inductive ActF where
  | lit (v : PyVal)
  | fn (f : PyVal → PyVal)

/-- A rule destination: a literal, or a callable called with the current
state (`d(self.state) if callable(d) else d`). -/
inductive DestF where
  | lit (v : PyVal)
  | fn (f : PyVal → PyVal)

/-- One rule of `smallmachine.StateMachine`: `(label, test, action, new_state)`. -/
structure SMRule where
  label : String
  test : TestF
  action : ActF
  dest : DestF

/-- Evaluate a test against an input. -/
def evalTest (t : TestF) (i : PyVal) : Bool :=
  match t with
  | .lit v => v == i
  | .fn f => f i

/-- Evaluate an action against an input, producing the response. -/
def evalAct (a : ActF) (i : PyVal) : PyVal :=
  match a with
  | .lit v => v
  | .fn f => f i

/-- Resolve a destination against the current state. -/
def evalDest (d : DestF) (state : PyVal) : PyVal :=
  match d with
  | .lit v => v
  | .fn f => f state

/-- The rules dict `{ state: [(label, test, action, new_state), ...], ...}`,
as an insertion-ordered association list. -/
def RuleTable : Type := List (PyVal × List SMRule)

/-- `self.rules.get(k, [])`. -/
def RuleTable.get (rt : RuleTable) (k : PyVal) : List SMRule :=
  match List.find? (fun p => p.1 == k) rt with
  | some p => p.2
  | Option.none => []

/-- `k in self.rules`. -/
def RuleTable.hasKey (rt : RuleTable) (k : PyVal) : Bool :=
  List.any rt (fun p => p.1 == k)

/-- The engine's tracepoints.  In the source these are the distinct
`TRACE_*` format-string constants of `StateMachine`, compared by identity;
here they are an enumeration, with `Tp.format` giving the rendered line. -/
inductive Tp where
  | tpInput
  | noRules
  | rule
  | result
  | response
  | newState
  | unrecognized
  | unknownState
deriving DecidableEq, Repr

/-- The keyword values passed to a tracer at a tracepoint; fields absent from
the call are `none`. -/
structure TraceVals where
  state : Option PyVal := Option.none
  inputVal : Option PyVal := Option.none
  label : Option String := Option.none
  test : Option TestF := Option.none
  action : Option ActF := Option.none
  dest : Option DestF := Option.none
  result : Option Bool := Option.none
  response : Option PyVal := Option.none
  new_state : Option PyVal := Option.none

/-- Errors raised by the checkpoint tracers (`NoRulesError`,
`UnrecognizedInputError`, `UnknownStateError`). -/
inductive ErrKind where
  | noRulesError
  | unrecognizedInputError
  | unknownStateError
deriving DecidableEq, Repr

/-- A raised Python error: its class and its message. -/
structure PyErr where
  kind : ErrKind
  msg : String
deriving DecidableEq, Repr

/-- A tracer with state type `τ`: called with a tracepoint and its values, it
returns the possibly-raised error together with its updated state (updates
made before a raise persist, as Python objects mutate in place). -/
def TracerFn (τ : Type) : Type :=
  Tp → TraceVals → τ → Option PyErr × τ

/-- The engine: current state and rules dict (`tracer` is passed to `call`). -/
structure StateMachine where
  state : PyVal
  rules : RuleTable

/-- The rule loop of `StateMachine.__call__`: try each rule in order; on the
first truthy test evaluate the action and destination, emit the tracepoints,
perform the state assignment unless the destination is `...`, and return the
response; when the list is exhausted emit `TRACE_UNRECOGNIZED` and return
`None`.  The returned `PyVal` is the state after the loop. -/
def callRules (tr : TracerFn τ) (rules : RuleTable) (st : PyVal) (i : PyVal) :
    List SMRule → τ → Except PyErr PyVal × PyVal × τ
  | [], ts =>
    match tr .unrecognized { inputVal := some i } ts with
    | (some err, ts1) => (.error err, st, ts1)
    | (Option.none, ts1) => (.ok .none, st, ts1)
  | r :: rest, ts =>
    match tr .rule { label := some r.label, test := some r.test,
                         action := some r.action, dest := some r.dest } ts with
    | (some err, ts1) => (.error err, st, ts1)
    | (Option.none, ts1) =>
      if evalTest r.test i then
        match tr .result { label := some r.label, result := some (evalTest r.test i) } ts1 with
        | (some err, ts2) => (.error err, st, ts2)
        | (Option.none, ts2) =>
          let resp := evalAct r.action i
          match tr .response { response := some resp } ts2 with
          | (some err, ts3) => (.error err, st, ts3)
          | (Option.none, ts3) =>
            let dst := evalDest r.dest st
            match tr .newState { new_state := some dst } ts3 with
            | (some err, ts4) => (.error err, st, ts4)
            | (Option.none, ts4) =>
              if dst == .ellipsis then
                (.ok resp, st, ts4)
              else
                if RuleTable.hasKey rules dst then
                  (.ok resp, dst, ts4)
                else
                  match tr .unknownState { new_state := some dst } ts4 with
                  | (some err, ts5) => (.error err, st, ts5)
                  | (Option.none, ts5) => (.ok resp, dst, ts5)
      else
        callRules tr rules st i rest ts1

/-- `StateMachine.__call__(i)`: emit `TRACE_INPUT`, build the applicable rule
list (state-specific rules then wildcard `...` rules), emit `TRACE_NO_RULES`
when it is empty, and run the rule loop.  Returns the response (or the error
raised by a tracer), the machine afterwards, and the tracer state. -/
def StateMachine.call (tr : TracerFn τ) (m : StateMachine) (ts : τ) (i : PyVal) :
    Except PyErr PyVal × StateMachine × τ :=
  match tr .tpInput { state := some m.state, inputVal := some i } ts with
  | (some err, ts1) => (.error err, m, ts1)
  | (Option.none, ts1) =>
    let rule_list := RuleTable.get m.rules m.state ++ RuleTable.get m.rules .ellipsis
    if rule_list.isEmpty then
      match tr .noRules { state := some m.state } ts1 with
      | (some err, ts2) => (.error err, m, ts2)
      | (Option.none, ts2) =>
        let out := callRules tr m.rules m.state i rule_list ts2
        (out.1, { m with state := out.2.1 }, out.2.2)
    else
      let out := callRules tr m.rules m.state i rule_list ts1
      (out.1, { m with state := out.2.1 }, out.2.2)

/-- The default no-op tracer `lambda m, **v: None` of `StateMachine.__init__`. -/
def unitTracer : TracerFn Unit := fun _ _ _ => (Option.none, ())

/-- A tracer that records every emitted tracepoint with its values, used to
state which events a call emits. -/
def logTracer : TracerFn (List (Tp × TraceVals)) :=
  fun tp v l => (Option.none, l ++ [(tp, v)])

/-!  Tracing and checkpoints (`smallmachine.py`).  -/

/-- Rendering of a test in a trace line: Python prints literals with `str()`
and callables with their (address-dependent) repr, modelled here by the fixed
placeholder `"<callable>"`. -/
def TestF.str : TestF → String
  | .lit v => pyStr v
  | .fn _ => "<callable>"

/-- Rendering of an action in a trace line (see `TestF.str`). -/
def ActF.str : ActF → String
  | .lit v => pyStr v
  | .fn _ => "<callable>"

/-- Rendering of a destination in a trace line (see `TestF.str`). -/
def DestF.str : DestF → String
  | .lit v => pyStr v
  | .fn _ => "<callable>"

/-- `tp.format(**vals)`: the `TRACE_*` format strings of `StateMachine`
applied to the values passed at each tracepoint. -/
def Tp.format (tp : Tp) (v : TraceVals) : String :=
  match tp with
  | .tpInput => pyStr (v.state.getD .none) ++ "('" ++ pyStr (v.inputVal.getD .none) ++ "')"
  | .noRules => "\t(No rules: " ++ pyStr (v.state.getD .none) ++ ")"
  | .rule => "  " ++ v.label.getD "" ++ ": " ++ TestF.str (v.test.getD (.lit .none))
      ++ " -- " ++ ActF.str (v.action.getD (.lit .none))
      ++ " --> " ++ DestF.str (v.dest.getD (.lit .none))
  | .result => "  " ++ v.label.getD "" ++ ": " ++ (if v.result.getD false then "True" else "False")
  | .response => "    " ++ pyStr (v.response.getD .none)
  | .newState => "    --> " ++ pyStr (v.new_state.getD .none)
  | .unrecognized => "\t(No match: '" ++ pyStr (v.inputVal.getD .none) ++ "')"
  | .unknownState => "\t(Unknown state: " ++ pyStr (v.new_state.getD .none) ++ ")"

/-- The context dict accumulated by `ContextTracer` (and the `self.context`
dict of `ErrorTracer`): every key that the tracers ever store, each optional,
plus the input count. -/
structure Ctx where
  tracepoint : Option Tp := Option.none
  input_count : Nat := 0
  state : Option PyVal := Option.none
  inputVal : Option PyVal := Option.none
  label : Option String := Option.none
  test : Option TestF := Option.none
  action : Option ActF := Option.none
  dest : Option DestF := Option.none
  result : Option Bool := Option.none
  response : Option PyVal := Option.none
  new_state : Option PyVal := Option.none
  no_rules : Option String := Option.none
  unrecognized : Option String := Option.none
  unknown_state : Option String := Option.none
  loop_count : Option Nat := Option.none

/-- `dict.update`: keys present in the tracepoint values overwrite the
context's, all others are kept. -/
def Ctx.update (c : Ctx) (v : TraceVals) : Ctx :=
  { c with
    state := v.state.orElse (fun _ => c.state),
    inputVal := v.inputVal.orElse (fun _ => c.inputVal),
    label := v.label.orElse (fun _ => c.label),
    test := v.test.orElse (fun _ => c.test),
    action := v.action.orElse (fun _ => c.action),
    dest := v.dest.orElse (fun _ => c.dest),
    result := v.result.orElse (fun _ => c.result),
    response := v.response.orElse (fun _ => c.response),
    new_state := v.new_state.orElse (fun _ => c.new_state) }

/-- The `__name__` of an error class, as used by `trace_helper`. -/
def ErrKind.name : ErrKind → String
  | .noRulesError => "NoRulesError"
  | .unrecognizedInputError => "UnrecognizedInputError"
  | .unknownStateError => "UnknownStateError"

/-- `trace_helper(err, trace_lines)`. -/
def trace_helper (errName : String) (trace_lines : String) : String :=
  if trace_lines == "" then ""
  else "StateMachine Traceback (most recent last):\n" ++ trace_lines ++ "\n" ++ errName ++ ": "

/-- The `format` classmethod of the three error classes: builds the message
from the rendered trace and the accumulated context values. -/
def ErrKind.format (k : ErrKind) (trace_lines : String) (c : Ctx) : String :=
  let sm_trace := trace_helper k.name trace_lines
  match k with
  | .noRulesError =>
      sm_trace ++ "'" ++ pyStr (c.state.getD .none)
        ++ "' does not have any explicit nor implicit rules"
  | .unrecognizedInputError =>
      sm_trace ++ "'" ++ pyStr (c.state.getD .none) ++ "' did not recognize "
        ++ toString c.input_count ++ ": '" ++ pyStr (c.inputVal.getD .none) ++ "'"
  | .unknownStateError =>
      sm_trace ++ "'" ++ pyStr (c.new_state.getD .none) ++ "' is not in the ruleset"

/-- `ErrorTracer`: raises `error` when tracepoint `error_point` is reached,
keeping its own input count, context dict and a bounded trace of rendered
lines. -/
structure ErrorTracer where
  error_point : Tp
  error : ErrKind
  input_count : Nat
  context : Ctx
  maxlen : Option Nat
  trace : List String

/-- `ErrorTracer.__init__` with the default `history=10`. -/
def ErrorTracer.init (tp : Tp) (k : ErrKind) : ErrorTracer :=
  { error_point := tp, error := k, input_count := 0, context := {},
    maxlen := some 10, trace := [] }

/-- `ErrorTracer.__call__`: reset the context on `TRACE_INPUT`, merge the
tracepoint values, append the rendered line to the bounded trace, and raise
the configured error when the tracepoint is the configured error point. -/
def ErrorTracer.call (et : ErrorTracer) (tp : Tp) (v : TraceVals) :
    Option PyErr × ErrorTracer :=
  let et1 := if tp == .tpInput then
      { et with input_count := et.input_count + 1,
                context := { input_count := et.input_count + 1 } }
    else et
  let et2 := { et1 with context := et1.context.update v }
  let et3 := { et2 with trace := dequeAppend et2.maxlen et2.trace (tp.format v) }
  if tp == et3.error_point then
    (some { kind := et3.error,
            msg := ErrKind.format et3.error (String.intercalate "\n" et3.trace) et3.context },
     et3)
  else (Option.none, et3)

/-- `ContextTracer`: running context (`none` models the initial empty dict),
input count, bounded history of completed contexts, and the compaction flag. -/
structure ContextTracer where
  context : Option Ctx
  input_count : Nat
  maxlen : Option Nat
  history : List Ctx
  compact : Bool

/-- `ContextTracer.__init__(history, compact)`: `None` or a negative history
depth means unlimited. -/
def ContextTracer.init (history : Option Int) (compact : Bool) : ContextTracer :=
  { context := Option.none, input_count := 0,
    maxlen := match history with
      | Option.none => Option.none
      | some h => if h < 0 then Option.none else some h.toNat,
    history := [], compact := compact }

/-- `ContextTracer.fold_loop`: when the newest context's originating state
equals the last retained one's, either bump an existing `loop_count` and drop
the retained entry, or — from the third consecutive iteration — start
compacting with `loop_count = 2`. -/
def ContextTracer.fold_loop (ct : ContextTracer) : ContextTracer :=
  match ct.history.getLast? with
  | Option.none => ct
  | some previous =>
    let latest := ct.context.getD {}
    if previous.state == latest.state then
      match previous.loop_count with
      | some lc =>
        { ct with context := some { latest with loop_count := some (lc + 1) },
                  history := ct.history.dropLast }
      | Option.none =>
        if 2 ≤ ct.history.length then
          let p_previous := ct.history.dropLast.getLast?.getD {}
          if p_previous.state == latest.state then
            { ct with context := some { latest with loop_count := some 2 },
                      history := ct.history.dropLast.dropLast }
          else ct
        else ct
    else ct

/-- `ContextTracer.__call__`: on `TRACE_INPUT` push the previous context into
the history and start a fresh one; otherwise merge the values (adding the
`no_rules` / `unrecognized` / `unknown_state` marker constants); then fold
loops after `TRACE_NEW_STATE` when compacting. -/
def ContextTracer.call (ct : ContextTracer) (tp : Tp) (v : TraceVals) : ContextTracer :=
  let ct1 :=
    if tp == .tpInput then
      let history := match ct.context with
        | some c => dequeAppend ct.maxlen ct.history c
        | Option.none => ct.history
      let n := ct.input_count + 1
      let c := { (Ctx.update {} v) with tracepoint := some tp, input_count := n }
      { ct with history := history, input_count := n, context := some c }
    else
      let base := (ct.context.getD {}).update v
      let base := { base with tracepoint := some tp }
      let base := if tp == .noRules then { base with no_rules := some "(No rules)" } else base
      let base := if tp == .unrecognized then { base with unrecognized := some "(No match)" } else base
      let base := if tp == .unknownState then { base with unknown_state := some "(Unknown state)" } else base
      { ct with context := some base }
  if ct1.compact && tp == .newState then ct1.fold_loop else ct1

/-- The tracer stack installed by the `statemachine` factory with its default
arguments: `MultiTracer(ContextTracer(), NoRulesError.tracer(),
UnrecognizedInputError.tracer(), UnknownStateError.tracer())`. -/
structure FactoryTracer where
  ctx : ContextTracer
  noRulesET : ErrorTracer
  unrecognizedET : ErrorTracer
  unknownStateET : ErrorTracer

/-- The combined tracer: sub-tracers run in registration order; the first
raise aborts the remaining ones (updates already made persist). -/
def FactoryTracer.call (ft : FactoryTracer) (tp : Tp) (v : TraceVals) :
    Option PyErr × FactoryTracer :=
  let ft1 := { ft with ctx := ft.ctx.call tp v }
  match ft1.noRulesET.call tp v with
  | (some err, nr) => (some err, { ft1 with noRulesET := nr })
  | (Option.none, nr) =>
    let ft2 := { ft1 with noRulesET := nr }
    match ft2.unrecognizedET.call tp v with
    | (some err, ur) => (some err, { ft2 with unrecognizedET := ur })
    | (Option.none, ur) =>
      let ft3 := { ft2 with unrecognizedET := ur }
      match ft3.unknownStateET.call tp v with
      | (e, us) => (e, { ft3 with unknownStateET := us })

/-- The `statemachine` factory with default `history`, `debug=False` and
`lenient=()`: the machine plus the pre-configured tracer stack. -/
def statemachine (state : PyVal) (rules : RuleTable) : StateMachine × FactoryTracer :=
  ({ state := state, rules := rules },
   { ctx := ContextTracer.init (some 10) true,
     noRulesET := ErrorTracer.init .noRules .noRulesError,
     unrecognizedET := ErrorTracer.init .unrecognized .unrecognizedInputError,
     unknownStateET := ErrorTracer.init .unknownState .unknownStateError })

/-- The checkpoint wiring every factory-built tracer stack has (and keeps):
each error tracer watches its own tracepoint and raises its own error class. -/
def FactoryTracer.std (ft : FactoryTracer) : Prop :=
  ft.noRulesET.error_point = .noRules ∧ ft.noRulesET.error = .noRulesError ∧
  ft.unrecognizedET.error_point = .unrecognized ∧
  ft.unrecognizedET.error = .unrecognizedInputError ∧
  ft.unknownStateET.error_point = .unknownState ∧
  ft.unknownStateET.error = .unknownStateError

/-- The factory's tracer stack in the calling convention the engine expects. -/
def factoryTracerFn : TracerFn FactoryTracer :=
  fun tp v ft => FactoryTracer.call ft tp v

/-- Feed a list of inputs through a factory-built machine one call at a time,
threading machine and tracer state (a raised error ends that call only). -/
def smRun (m : StateMachine) (ft : FactoryTracer) : List PyVal → StateMachine × FactoryTracer
  | [] => (m, ft)
  | i :: rest =>
    let out := StateMachine.call factoryTracerFn m ft i
    smRun out.2.1 out.2.2 rest

/-!  The `statemachine.py` engine.  -/

/-- `TransitionInfo(state, dst, count, result)`; `result` is `None` while the
test runs and is then replaced by the test's result. -/
structure TransitionInfo where
  state : PyVal
  dst : PyVal
  count : Nat
  result : Option Bool

/-- A core rule test: a literal compared by `==`, or a callable called with
the input and the `TransitionInfo`. -/
inductive CTestF where
  | lit (v : PyVal)
  | fn (f : PyVal → TransitionInfo → Bool)

/-- A core rule action: a literal returned verbatim, or a callable called
with the input and the `TransitionInfo`. -/
inductive CActF where
  | lit (v : PyVal)
  | fn (f : PyVal → TransitionInfo → PyVal)

/-- One rule of `StateMachineCore`: `(test, dst, action, tag)`. -/
structure CRule where
  test : CTestF
  dst : PyVal
  action : CActF
  tag : Option String

/-- Evaluate a core test. -/
def evalCTest (t : CTestF) (i : PyVal) (ti : TransitionInfo) : Bool :=
  match t with
  | .lit v => v == i
  | .fn f => f i ti

/-- Evaluate a core action. -/
def evalCAct (a : CActF) (i : PyVal) (ti : TransitionInfo) : PyVal :=
  match a with
  | .lit v => v
  | .fn f => f i ti

/-- `TraceInfo(t_info, test, action, tag, out, end)` handed to core tracers
after every tested rule. -/
structure TraceInfo where
  t_info : TransitionInfo
  test : CTestF
  action : CActF
  tag : Option String
  out : PyVal
  endState : PyVal

/-- Does an insertion-ordered dict (association list) contain the key? -/
def alistHas (l : List (PyVal × α)) (k : PyVal) : Bool :=
  List.any l (fun p => p.1 == k)

/-- `d.get(k, dflt)` on an insertion-ordered dict. -/
def alistGetD (l : List (PyVal × α)) (k : PyVal) (dflt : α) : α :=
  match List.find? (fun p => p.1 == k) l with
  | some p => p.2
  | Option.none => dflt

/-- `d[k] = v` on an insertion-ordered dict: overwrite an existing key in
place, else append at the end. -/
def alistSet (l : List (PyVal × α)) (k : PyVal) (v : α) : List (PyVal × α) :=
  if alistHas l k then l.map (fun p => if p.1 == k then (k, v) else p)
  else l ++ [(k, v)]

/-- Update the value stored at a key in place. -/
def alistModify (l : List (PyVal × α)) (k : PyVal) (f : α → α) : List (PyVal × α) :=
  l.map (fun p => if p.1 == k then (p.1, f p.2) else p)

/-- `StateMachineCore`: rules dict, current state and input count. -/
structure StateMachineCore where
  rules : List (PyVal × List CRule)
  state : PyVal
  i_count : Nat

/-- `StateMachineCore.__init__(start)`: `self.rules = {start: [], None: []}`. -/
def StateMachineCore.init (start : PyVal) : StateMachineCore :=
  { rules := alistSet (alistSet [] start []) .none [],
    state := start, i_count := 0 }

/-- `StateMachineCore.add(state, test, dst, action, tag)`: ensure both the
originating state and the destination are keys, then append the rule to the
originating state's list. -/
def StateMachineCore.add (c : StateMachineCore) (state : PyVal) (test : CTestF)
    (dst : PyVal) (action : CActF) (tag : Option String) : StateMachineCore :=
  let rules := if alistHas c.rules state then c.rules else alistSet c.rules state []
  let rules := if alistHas rules dst then rules else alistSet rules dst []
  let rules := alistModify rules state
    (fun rl => rl ++ [{ test := test, dst := dst, action := action, tag := tag }])
  { c with rules := rules }

/-- One rule argument of `StateMachine.build`: all three accepted shapes
(positional tuple, kwargs dict, or a pair of both) carry the same four rule
fields and result in one `add` call. -/
structure BuildRule where
  test : CTestF
  dst : PyVal
  action : CActF
  tag : Option String

/-- `StateMachine.build(state, *rules)`: one `add` per rule argument. -/
def StateMachineCore.build (c : StateMachineCore) (state : PyVal)
    (rs : List BuildRule) : StateMachineCore :=
  rs.foldl (fun c r => c.add state r.test r.dst r.action r.tag) c

/-- A table-building operation: a single `add` call or a `build` call. -/
inductive TableOp where
  | addOp (state : PyVal) (test : CTestF) (dst : PyVal) (action : CActF) (tag : Option String)
  | buildOp (state : PyVal) (rs : List BuildRule)

/-- Apply one table-building operation. -/
def applyOp (c : StateMachineCore) : TableOp → StateMachineCore
  | .addOp state test dst action tag => c.add state test dst action tag
  | .buildOp state rs => c.build state rs

/-- Apply a sequence of table-building operations. -/
def applyOps (c : StateMachineCore) (ops : List TableOp) : StateMachineCore :=
  ops.foldl applyOp c

/-- A core tracer: called with the input and a `TraceInfo` after every
tested rule. -/
def CTracerFn (τ : Type) : Type := PyVal → TraceInfo → τ → τ

/-- The rule loop of `StateMachineCore.input`: test the rules in order; on
the first truthy result move to `dst` (unless `dst` is `None`), run the
action, trace, and stop with the action's output; trace every failed rule.
Returns `none` when no rule matched. -/
def coreLoop (tr : CTracerFn τ) (i : PyVal) :
    List CRule → StateMachineCore → τ → Option PyVal × StateMachineCore × τ
  | [], c, ts => (Option.none, c, ts)
  | r :: rest, c, ts =>
    let t0 : TransitionInfo :=
      { state := c.state, dst := r.dst, count := c.i_count, result := Option.none }
    let result := evalCTest r.test i t0
    let t1 := { t0 with result := some result }
    if result then
      let c1 := if r.dst != .none then { c with state := r.dst } else c
      let out := evalCAct r.action i t1
      let ts1 := tr i { t_info := t1, test := r.test, action := r.action,
                        tag := r.tag, out := out, endState := c1.state } ts
      (some out, c1, ts1)
    else
      let ts1 := tr i { t_info := t1, test := r.test, action := r.action,
                        tag := r.tag, out := .none, endState := c.state } ts
      coreLoop tr i rest c ts1

/-- `StateMachineCore.input(i)`: bump the input count, build the applicable
rule list (state rules then wildcard `None` rules), run the rule loop, and
fall back to the `unrecognized` handler when nothing matched. -/
def StateMachineCore.input (tr : CTracerFn τ)
    (unrecognizedH : PyVal → PyVal → Nat → Except PyErr PyVal)
    (c : StateMachineCore) (ts : τ) (i : PyVal) :
    Except PyErr PyVal × StateMachineCore × τ :=
  let c1 := { c with i_count := c.i_count + 1 }
  let rlist := alistGetD c1.rules c1.state [] ++ alistGetD c1.rules .none []
  match coreLoop tr i rlist c1 ts with
  | (some out, c2, ts1) => (.ok out, c2, ts1)
  | (Option.none, c2, ts1) =>
    match unrecognizedH i c2.state c2.i_count with
    | .ok v => (.ok v, c2, ts1)
    | .error e => (.error e, c2, ts1)

/-- The baseline no-op `unrecognized` handler `lambda *_: None`. -/
def noopUnrecognized : PyVal → PyVal → Nat → Except PyErr PyVal :=
  fun _ _ _ => .ok .none

/-- The baseline no-op core tracer `lambda *_: None`. -/
def unitCoreTracer : CTracerFn Unit := fun _ _ _ => ()

/-- Feed a list of inputs through a core machine, threading tracer state. -/
def coreRun (tr : CTracerFn τ)
    (unrecognizedH : PyVal → PyVal → Nat → Except PyErr PyVal) :
    StateMachineCore → τ → List PyVal → StateMachineCore × τ
  | c, ts, [] => (c, ts)
  | c, ts, i :: rest =>
    let out := StateMachineCore.input tr unrecognizedH c ts i
    coreRun tr unrecognizedH out.2.1 out.2.2 rest

/-- `RecentTracer`: bounded buffer of the significant (followed) transitions
`(input, trace-info, loop_count, tested-count)`, with self-transitions folded
into a loop count. -/
structure RecentTracer where
  maxlen : Option Nat
  buffer : List (PyVal × TraceInfo × Nat × Nat)
  t_count : Nat

/-- `RecentTracer.__init__(depth)`: negative depth means unlimited. -/
def RecentTracer.init (depth : Int) : RecentTracer :=
  { maxlen := if depth < 0 then Option.none else some depth.toNat,
    buffer := [], t_count := 0 }

/-- `RecentTracer.__call__(i, t)`: count every tested rule; record only
followed transitions; when the machine stayed in the state of the last
recorded entry, bump that entry's loop count and replace it instead of
appending a second one. -/
def RecentTracer.call (rt : RecentTracer) (i : PyVal) (t : TraceInfo) : RecentTracer :=
  let rt1 := { rt with t_count := rt.t_count + 1 }
  if !(t.t_info.result.getD false) then rt1
  else
    let folded : Nat × List (PyVal × TraceInfo × Nat × Nat) :=
      match rt1.buffer.getLast? with
      | some prev =>
        if t.t_info.state == prev.2.1.t_info.state && t.t_info.state == t.endState then
          (prev.2.2.1 + 1, rt1.buffer.dropLast)
        else (1, rt1.buffer)
      | Option.none => (1, rt1.buffer)
    { rt1 with
      buffer := dequeAppend rt1.maxlen folded.2 (i, t, folded.1, rt1.t_count),
      t_count := 0 }

/-- `RecentTracer.__call__` in the calling convention `coreLoop` expects. -/
def recentTracerFn : CTracerFn RecentTracer := fun i t rt => rt.call i t

/-- Every rule's destination in the table is itself a key of the table. -/
def destKeysClosed (c : StateMachineCore) : Prop :=
  ∀ p ∈ c.rules, ∀ r ∈ p.2, alistHas c.rules r.dst = true

/-!  Concrete fixtures used to exercise the theorems below on closed inputs.  -/

/-- A literal self-loop rule: test `"go"`, action `"resp"`, destination `...`. -/
def wRule : SMRule :=
  { label := "go", test := .lit (.str "go"), action := .lit (.str "resp"),
    dest := .lit .ellipsis }

/-- A rule whose destination `"B"` is not a key of the fixture's table. -/
def wRuleB : SMRule :=
  { label := "jump", test := .lit (.str "go"), action := .lit (.str "resp"),
    dest := .lit (.str "B") }

/-- A machine in state `"A"` with only the self-loop rule. -/
def wMachine : StateMachine := { state := .str "A", rules := [(.str "A", [wRule])] }

/-- A machine in state `"A"` with only the dangling-destination rule. -/
def wMachineB : StateMachine := { state := .str "A", rules := [(.str "A", [wRuleB])] }

/-- A core self-loop rule `("go", dst="A", action="resp")`. -/
def wCRule : CRule :=
  { test := .lit (.str "go"), dst := .str "A", action := .lit (.str "resp"),
    tag := Option.none }

/-- A core stay rule `("go", dst=None, action="resp")`. -/
def wCRuleStay : CRule :=
  { test := .lit (.str "go"), dst := .none, action := .lit (.str "resp"),
    tag := Option.none }

/-- A core machine with the self-loop rule on state `"A"`. -/
def wCore : StateMachineCore :=
  (StateMachineCore.init (.str "A")).add (.str "A") (.lit (.str "go")) (.str "A")
    (.lit (.str "resp")) Option.none

/-- A core machine with the stay rule on state `"A"`. -/
def wCoreStay : StateMachineCore :=
  (StateMachineCore.init (.str "A")).add (.str "A") (.lit (.str "go")) .none
    (.lit (.str "resp")) Option.none

/-- An always-true wildcard echo rule with the Stay destination. -/
def wWildRule : SMRule :=
  { label := "echo-rule", test := .fn (fun _ => true), action := .lit (.str "echo"),
    dest := .lit .ellipsis }

/-- A machine in state `"A"` whose only rules live under the `...` wildcard
key; state `"A"` has no entry of its own. -/
def wWildMachine : StateMachine :=
  { state := .str "A", rules := [(.ellipsis, [wWildRule])] }

/-- The `TraceInfo` the core engine hands the tracer on the `j`-th input of
the `wCore` self-loop run. -/
def c2T (j : Nat) : TraceInfo :=
  { t_info := { state := .str "A", dst := .str "A", count := j, result := some true },
    test := .lit (.str "go"), action := .lit (.str "resp"), tag := Option.none,
    out := .str "resp", endState := .str "A" }

/-- A standalone `ContextTracer` as the machine's tracer (it never raises). -/
def ctxTracerFn : TracerFn ContextTracer := fun tp v ct => (Option.none, ct.call tp v)

/-- Feed a list of inputs through a machine traced only by a
`ContextTracer`. -/
def smRunCtx (m : StateMachine) (ct : ContextTracer) : List PyVal → StateMachine × ContextTracer
  | [] => (m, ct)
  | i :: rest =>
    let out := StateMachine.call ctxTracerFn m ct i
    smRunCtx out.2.1 out.2.2 rest

/-- The context collected for the `m`-th input of the `wMachine` self-loop
run, with the given folded loop count. -/
def c2Ctx (m : Nat) (lc : Option Nat) : Ctx :=
  { tracepoint := some .newState, input_count := m,
    state := some (.str "A"), inputVal := some (.str "go"),
    label := some "go", test := some (.lit (.str "go")),
    action := some (.lit (.str "resp")), dest := some (.lit .ellipsis),
    result := some true, response := some (.str "resp"),
    new_state := some .ellipsis, loop_count := lc }

/-!  Lemmas about the `smallmachine.py` rule loop.  -/

/-- With the default no-op tracer, the rule loop on a list whose first truthy
test belongs to `r` returns `r`'s response and resolves `r`'s destination. -/
theorem callRules_unit_first (rules : RuleTable) (st i : PyVal)
    (pre post : List SMRule) (r : SMRule)
    (hpre : ∀ r' ∈ pre, evalTest r'.test i = false)
    (hr : evalTest r.test i = true) :
    callRules unitTracer rules st i (pre ++ r :: post) ()
      = (.ok (evalAct r.action i),
         (if evalDest r.dest st == PyVal.ellipsis then st else evalDest r.dest st),
         ()) := by
  induction pre with
  | nil =>
    simp only [List.nil_append, callRules, unitTracer, hr, if_true]
    by_cases hd : evalDest r.dest st == PyVal.ellipsis
    · simp [hd]
    · by_cases hk : RuleTable.hasKey rules (evalDest r.dest st) <;> simp [hd, hk]
  | cons p pre ih =>
    have hp : evalTest p.test i = false := hpre p (List.mem_cons_self p pre)
    simp only [List.cons_append, callRules, unitTracer, hp, Bool.false_eq_true, if_false]
    exact ih (fun r' h => hpre r' (List.mem_cons_of_mem p h))

/-- Rules after the first truthy one play no part: the rule loop's outcome is
the same for any tail placed after the first matching rule (for any tracer). -/
theorem callRules_post_irrelevant (tr : TracerFn τ) (rules : RuleTable)
    (st i : PyVal) (pre post post' : List SMRule) (r : SMRule) (ts : τ)
    (hpre : ∀ r' ∈ pre, evalTest r'.test i = false)
    (hr : evalTest r.test i = true) :
    callRules tr rules st i (pre ++ r :: post) ts
      = callRules tr rules st i (pre ++ r :: post') ts := by
  induction pre generalizing ts with
  | nil =>
    simp only [List.nil_append, callRules, hr, if_true]
  | cons p pre ih =>
    have hp : evalTest p.test i = false := hpre p (List.mem_cons_self p pre)
    simp only [List.cons_append, callRules, hp, Bool.false_eq_true, if_false]
    cases tr .rule { label := some p.label, test := some p.test,
                     action := some p.action, dest := some p.dest } ts with
    | mk e ts1 =>
      cases e with
      | some err => rfl
      | none => exact ih ts1 (fun r' h => hpre r' (List.mem_cons_of_mem p h))

/-- The rule loop either leaves the state argument unchanged or moves to a
resolved destination that is not the `...` sentinel (for any tracer). -/
theorem callRules_state_cases (tr : TracerFn τ) (rules : RuleTable)
    (st i : PyVal) : ∀ (l : List SMRule) (ts : τ),
    (callRules tr rules st i l ts).2.1 = st ∨
    (callRules tr rules st i l ts).2.1 ≠ PyVal.ellipsis := by
  intro l
  induction l with
  | nil =>
    intro ts
    left
    simp only [callRules]
    split <;> rfl
  | cons r rest ih =>
    intro ts
    simp only [callRules]
    split
    · left; rfl
    · split
      · split
        · left; rfl
        · split
          · left; rfl
          · split
            · left; rfl
            · split
              next hd => left; rfl
              next hd =>
                split
                next hk => right; simpa using hd
                next hk =>
                  split
                  · left; rfl
                  · right; simpa using hd
      · exact ih _

/-- When the first truthy rule's destination resolves to the `...` stay
sentinel, the rule loop leaves the state unchanged (for any tracer). -/
theorem callRules_stay (tr : TracerFn τ) (rules : RuleTable) (st i : PyVal)
    (pre post : List SMRule) (r : SMRule)
    (hpre : ∀ r' ∈ pre, evalTest r'.test i = false)
    (hr : evalTest r.test i = true)
    (hd : evalDest r.dest st = PyVal.ellipsis) :
    ∀ ts, (callRules tr rules st i (pre ++ r :: post) ts).2.1 = st := by
  induction pre with
  | nil =>
    intro ts
    simp only [List.nil_append, callRules, hr, hd, if_true, beq_self_eq_true]
    (repeat' split) <;> rfl
  | cons p pre ih =>
    intro ts
    have hp : evalTest p.test i = false := hpre p (List.mem_cons_self p pre)
    simp only [List.cons_append, callRules, hp, Bool.false_eq_true, if_false]
    split
    · rfl
    · exact ih (fun r' h => hpre r' (List.mem_cons_of_mem p h)) _

/-- `StateMachine.__call__` never changes the rules dict: the machine it
leaves behind differs from the one it was given at most in `state`. -/
theorem call_rules_frame (tr : TracerFn τ) (m : StateMachine) (ts : τ) (i : PyVal) :
    (StateMachine.call tr m ts i).2.1.rules = m.rules := by
  simp only [StateMachine.call]
  (repeat' split) <;> rfl

/-!  Lemmas about the `statemachine.py` rule loop.  -/

/-- The core rule loop never touches the rules dict or the input counter. -/
theorem coreLoop_frame (tr : CTracerFn τ) (i : PyVal) :
    ∀ (l : List CRule) (c : StateMachineCore) (ts : τ),
    (coreLoop tr i l c ts).2.1.rules = c.rules ∧
    (coreLoop tr i l c ts).2.1.i_count = c.i_count := by
  intro l
  induction l with
  | nil => intro c ts; exact ⟨rfl, rfl⟩
  | cons r rest ih =>
    intro c ts
    simp only [coreLoop]
    split
    · constructor
      · split <;> rfl
      · split <;> rfl
    · exact ih c _

/-- With the default no-op tracer, the core rule loop on a list whose first
truthy test belongs to `r` returns `r`'s action output and moves to `r.dst`
unless `r.dst` is the `None` stay sentinel. -/
theorem coreLoop_unit_first (i : PyVal) (c : StateMachineCore)
    (pre post : List CRule) (r : CRule)
    (hpre : ∀ r' ∈ pre, evalCTest r'.test i
      { state := c.state, dst := r'.dst, count := c.i_count, result := Option.none } = false)
    (hr : evalCTest r.test i
      { state := c.state, dst := r.dst, count := c.i_count, result := Option.none } = true) :
    coreLoop unitCoreTracer i (pre ++ r :: post) c ()
      = (some (evalCAct r.action i
           { state := c.state, dst := r.dst, count := c.i_count, result := some true }),
         (if r.dst != PyVal.none then { c with state := r.dst } else c), ()) := by
  induction pre with
  | nil =>
    simp only [List.nil_append, coreLoop, hr, if_true]
  | cons p pre ih =>
    have hp := hpre p (List.mem_cons_self p pre)
    simp only [List.cons_append, coreLoop, hp, Bool.false_eq_true, if_false]
    exact ih (fun r' h => hpre r' (List.mem_cons_of_mem p h))

/-- Core rules after the first truthy one play no part in the loop's outcome
(for any tracer). -/
theorem coreLoop_post_irrelevant (tr : CTracerFn τ) (i : PyVal)
    (c : StateMachineCore) (pre post post' : List CRule) (r : CRule)
    (hpre : ∀ r' ∈ pre, evalCTest r'.test i
      { state := c.state, dst := r'.dst, count := c.i_count, result := Option.none } = false)
    (hr : evalCTest r.test i
      { state := c.state, dst := r.dst, count := c.i_count, result := Option.none } = true) :
    ∀ ts : τ, coreLoop tr i (pre ++ r :: post) c ts = coreLoop tr i (pre ++ r :: post') c ts := by
  induction pre with
  | nil =>
    intro ts
    simp only [List.nil_append, coreLoop, hr, if_true]
  | cons p pre ih =>
    intro ts
    have hp := hpre p (List.mem_cons_self p pre)
    simp only [List.cons_append, coreLoop, hp, Bool.false_eq_true, if_false]
    exact ih (fun r' h => hpre r' (List.mem_cons_of_mem p h)) _

/-- After any call, the machine's state is either unchanged or not the `...`
wildcard key. -/
theorem call_state_cases (tr : TracerFn τ) (m : StateMachine) (ts : τ) (i : PyVal) :
    (StateMachine.call tr m ts i).2.1.state = m.state ∨
    (StateMachine.call tr m ts i).2.1.state ≠ PyVal.ellipsis := by
  simp only [StateMachine.call]
  split
  · left; rfl
  · split
    · split
      · left; rfl
      · exact callRules_state_cases tr m.rules m.state i _ _
    · exact callRules_state_cases tr m.rules m.state i _ _

/-- When the first truthy rule's destination resolves to the `...` stay
sentinel, a call leaves the machine's state unchanged (for any tracer). -/
theorem call_stay (tr : TracerFn τ) (m : StateMachine) (ts : τ) (i : PyVal)
    (pre post : List SMRule) (r : SMRule)
    (hsplit : RuleTable.get m.rules m.state ++ RuleTable.get m.rules PyVal.ellipsis
      = pre ++ r :: post)
    (hpre : ∀ r' ∈ pre, evalTest r'.test i = false)
    (hr : evalTest r.test i = true)
    (hd : evalDest r.dest m.state = PyVal.ellipsis) :
    (StateMachine.call tr m ts i).2.1.state = m.state := by
  simp only [StateMachine.call, hsplit]
  split
  · rfl
  · split
    · split
      · rfl
      · exact callRules_stay tr m.rules m.state i pre post r hpre hr hd _
    · exact callRules_stay tr m.rules m.state i pre post r hpre hr hd _

/-- `StateMachineCore.input` changes nothing but `state` and the input
counter, which it increments by exactly one. -/
theorem core_input_frame (tr : CTracerFn τ)
    (unrecognizedH : PyVal → PyVal → Nat → Except PyErr PyVal)
    (c : StateMachineCore) (ts : τ) (i : PyVal) :
    (StateMachineCore.input tr unrecognizedH c ts i).2.1.rules = c.rules ∧
    (StateMachineCore.input tr unrecognizedH c ts i).2.1.i_count = c.i_count + 1 := by
  simp only [StateMachineCore.input]
  have hf := coreLoop_frame tr i
    (alistGetD c.rules c.state [] ++ alistGetD c.rules PyVal.none [])
    { c with i_count := c.i_count + 1 } ts
  split
  next out c2 ts1 h =>
    rw [h] at hf
    exact ⟨hf.1, hf.2⟩
  next c2 ts1 h =>
    rw [h] at hf
    split <;> exact ⟨hf.1, hf.2⟩

/-- When the first truthy core rule's destination is the `None` stay
sentinel, the core rule loop leaves the state unchanged (for any tracer). -/
theorem coreLoop_stay (tr : CTracerFn τ) (i : PyVal) (c : StateMachineCore)
    (pre post : List CRule) (r : CRule)
    (hpre : ∀ r' ∈ pre, evalCTest r'.test i
      { state := c.state, dst := r'.dst, count := c.i_count, result := Option.none } = false)
    (hr : evalCTest r.test i
      { state := c.state, dst := r.dst, count := c.i_count, result := Option.none } = true)
    (hd : r.dst = PyVal.none) :
    ∀ ts : τ, (coreLoop tr i (pre ++ r :: post) c ts).2.1.state = c.state := by
  induction pre with
  | nil =>
    intro ts
    simp only [List.nil_append, coreLoop, hr, if_true]
    simp [hd]
  | cons p pre ih =>
    intro ts
    have hp := hpre p (List.mem_cons_self p pre)
    simp only [List.cons_append, coreLoop, hp, Bool.false_eq_true, if_false]
    exact ih (fun r' h => hpre r' (List.mem_cons_of_mem p h)) _

/-- When the first truthy core rule's destination is the `None` stay
sentinel, `StateMachineCore.input` leaves the state unchanged. -/
theorem core_input_stay (tr : CTracerFn τ)
    (unrecognizedH : PyVal → PyVal → Nat → Except PyErr PyVal)
    (c : StateMachineCore) (ts : τ) (i : PyVal)
    (pre post : List CRule) (r : CRule)
    (hsplit : alistGetD c.rules c.state [] ++ alistGetD c.rules PyVal.none []
      = pre ++ r :: post)
    (hpre : ∀ r' ∈ pre, evalCTest r'.test i
      { state := c.state, dst := r'.dst, count := c.i_count + 1, result := Option.none } = false)
    (hr : evalCTest r.test i
      { state := c.state, dst := r.dst, count := c.i_count + 1, result := Option.none } = true)
    (hd : r.dst = PyVal.none) :
    (StateMachineCore.input tr unrecognizedH c ts i).2.1.state = c.state := by
  simp only [StateMachineCore.input, hsplit]
  have hst := coreLoop_stay tr i { c with i_count := c.i_count + 1 } pre post r hpre hr hd ts
  split
  next out c2 ts1 h =>
    rw [h] at hst
    exact hst
  next c2 ts1 h =>
    rw [h] at hst
    split <;> exact hst

/-- With the no-op tracer and handler, `StateMachineCore.input` returns the
output of the first truthy rule's action. -/
theorem core_input_first (c : StateMachineCore) (i : PyVal)
    (pre post : List CRule) (r : CRule)
    (hsplit : alistGetD c.rules c.state [] ++ alistGetD c.rules PyVal.none []
      = pre ++ r :: post)
    (hpre : ∀ r' ∈ pre, evalCTest r'.test i
      { state := c.state, dst := r'.dst, count := c.i_count + 1, result := Option.none } = false)
    (hr : evalCTest r.test i
      { state := c.state, dst := r.dst, count := c.i_count + 1, result := Option.none } = true) :
    (StateMachineCore.input unitCoreTracer noopUnrecognized c () i).1
      = .ok (evalCAct r.action i
          { state := c.state, dst := r.dst, count := c.i_count + 1, result := some true }) := by
  simp only [StateMachineCore.input, hsplit]
  rw [coreLoop_unit_first i { c with i_count := c.i_count + 1 } pre post r hpre hr]

/-- C1: For every state whose applicable rule list (state-specific rules in
insertion order followed by wildcard rules in insertion order) contains at
least one rule with a truthy test, evaluating an input
(`StateMachine.__call__` / `StateMachineCore.input`) returns exactly the
action's response of the first such rule, and no later rule's action or
destination is evaluated (the loop's outcome is independent of everything
after the first truthy rule). -/
theorem claim1_first_match_wins :
    (∀ (m : StateMachine) (i : PyVal) (pre post : List SMRule) (r : SMRule),
      RuleTable.get m.rules m.state ++ RuleTable.get m.rules PyVal.ellipsis
        = pre ++ r :: post →
      (∀ r' ∈ pre, evalTest r'.test i = false) →
      evalTest r.test i = true →
      (StateMachine.call unitTracer m () i).1 = .ok (evalAct r.action i)) ∧
    (∀ (τ : Type) (tr : TracerFn τ) (rules : RuleTable) (st i : PyVal)
       (pre post post' : List SMRule) (r : SMRule) (ts : τ),
      (∀ r' ∈ pre, evalTest r'.test i = false) →
      evalTest r.test i = true →
      callRules tr rules st i (pre ++ r :: post) ts
        = callRules tr rules st i (pre ++ r :: post') ts) ∧
    (∀ (c : StateMachineCore) (i : PyVal) (pre post : List CRule) (r : CRule),
      alistGetD c.rules c.state [] ++ alistGetD c.rules PyVal.none []
        = pre ++ r :: post →
      (∀ r' ∈ pre, evalCTest r'.test i
        { state := c.state, dst := r'.dst, count := c.i_count + 1,
          result := Option.none } = false) →
      evalCTest r.test i
        { state := c.state, dst := r.dst, count := c.i_count + 1,
          result := Option.none } = true →
      (StateMachineCore.input unitCoreTracer noopUnrecognized c () i).1
        = .ok (evalCAct r.action i
            { state := c.state, dst := r.dst, count := c.i_count + 1,
              result := some true })) ∧
    (∀ (τ : Type) (tr : CTracerFn τ) (i : PyVal) (c : StateMachineCore)
       (pre post post' : List CRule) (r : CRule) (ts : τ),
      (∀ r' ∈ pre, evalCTest r'.test i
        { state := c.state, dst := r'.dst, count := c.i_count,
          result := Option.none } = false) →
      evalCTest r.test i
        { state := c.state, dst := r.dst, count := c.i_count,
          result := Option.none } = true →
      coreLoop tr i (pre ++ r :: post) c ts = coreLoop tr i (pre ++ r :: post') c ts) := by
  refine ⟨?_, ?_, ?_, ?_⟩
  · intro m i pre post r hsplit hpre hr
    simp only [StateMachine.call, unitTracer, hsplit]
    split
    · rw [callRules_unit_first m.rules m.state i pre post r hpre hr]
    · rw [callRules_unit_first m.rules m.state i pre post r hpre hr]
  · intro τ tr rules st i pre post post' r ts hpre hr
    exact callRules_post_irrelevant tr rules st i pre post post' r ts hpre hr
  · intro c i pre post r hsplit hpre hr
    exact core_input_first c i pre post r hsplit hpre hr
  · intro τ tr i c pre post post' r ts hpre hr
    exact coreLoop_post_irrelevant tr i c pre post post' r hpre hr ts

/-- Closed instance of C1: on a one-rule machine the call returns the rule's
response, and appending a junk rule after the matching one changes nothing. -/
theorem claim1_witness :
    (StateMachine.call unitTracer wMachine () (.str "go")).1 = .ok (.str "resp") ∧
    callRules unitTracer wMachine.rules (.str "A") (.str "go") ([] ++ wRule :: []) ()
      = callRules unitTracer wMachine.rules (.str "A") (.str "go") ([] ++ wRule :: [wRuleB]) () ∧
    (StateMachineCore.input unitCoreTracer noopUnrecognized wCore () (.str "go")).1
      = .ok (.str "resp") ∧
    coreLoop unitCoreTracer (.str "go") ([] ++ wCRule :: []) wCore ()
      = coreLoop unitCoreTracer (.str "go") ([] ++ wCRule :: [wCRuleStay]) wCore () := by
  refine ⟨?_, ?_, ?_, ?_⟩
  · exact claim1_first_match_wins.1 wMachine (.str "go") [] [] wRule rfl
      (by intro r' h; cases h) rfl
  · exact claim1_first_match_wins.2.1 Unit unitTracer wMachine.rules (.str "A") (.str "go")
      [] [] [wRuleB] wRule () (by intro r' h; cases h) rfl
  · exact claim1_first_match_wins.2.2.1 wCore (.str "go") [] [] wCRule rfl
      (by intro r' h; cases h) rfl
  · exact claim1_first_match_wins.2.2.2 Unit unitCoreTracer (.str "go") wCore
      [] [] [wCRuleStay] wCRule () (by intro r' h; cases h) rfl

/-- C6: When the first matching rule's resolved destination is the Stay
sentinel, the machine's state after the call equals the state at entry; and
apart from `state` (and, in the core engine, the input counter, which goes up
by exactly one) evaluation changes no engine field: the rules dict is left
untouched by every call. -/
theorem claim6_stay_frame :
    (∀ (τ : Type) (tr : TracerFn τ) (m : StateMachine) (ts : τ) (i : PyVal)
       (pre post : List SMRule) (r : SMRule),
      RuleTable.get m.rules m.state ++ RuleTable.get m.rules PyVal.ellipsis
        = pre ++ r :: post →
      (∀ r' ∈ pre, evalTest r'.test i = false) →
      evalTest r.test i = true →
      evalDest r.dest m.state = PyVal.ellipsis →
      (StateMachine.call tr m ts i).2.1.state = m.state) ∧
    (∀ (τ : Type) (tr : TracerFn τ) (m : StateMachine) (ts : τ) (i : PyVal),
      (StateMachine.call tr m ts i).2.1.rules = m.rules) ∧
    (∀ (τ : Type) (tr : CTracerFn τ)
       (unrecognizedH : PyVal → PyVal → Nat → Except PyErr PyVal)
       (c : StateMachineCore) (ts : τ) (i : PyVal)
       (pre post : List CRule) (r : CRule),
      alistGetD c.rules c.state [] ++ alistGetD c.rules PyVal.none []
        = pre ++ r :: post →
      (∀ r' ∈ pre, evalCTest r'.test i
        { state := c.state, dst := r'.dst, count := c.i_count + 1,
          result := Option.none } = false) →
      evalCTest r.test i
        { state := c.state, dst := r.dst, count := c.i_count + 1,
          result := Option.none } = true →
      r.dst = PyVal.none →
      (StateMachineCore.input tr unrecognizedH c ts i).2.1.state = c.state) ∧
    (∀ (τ : Type) (tr : CTracerFn τ)
       (unrecognizedH : PyVal → PyVal → Nat → Except PyErr PyVal)
       (c : StateMachineCore) (ts : τ) (i : PyVal),
      (StateMachineCore.input tr unrecognizedH c ts i).2.1.rules = c.rules ∧
      (StateMachineCore.input tr unrecognizedH c ts i).2.1.i_count = c.i_count + 1) := by
  refine ⟨?_, ?_, ?_, ?_⟩
  · intro τ tr m ts i pre post r hsplit hpre hr hd
    exact call_stay tr m ts i pre post r hsplit hpre hr hd
  · intro τ tr m ts i
    exact call_rules_frame tr m ts i
  · intro τ tr unrecognizedH c ts i pre post r hsplit hpre hr hd
    exact core_input_stay tr unrecognizedH c ts i pre post r hsplit hpre hr hd
  · intro τ tr unrecognizedH c ts i
    exact core_input_frame tr unrecognizedH c ts i

/-- Closed instance of C6: the Stay self-loop leaves both machines in state
`"A"` with the rules untouched and the core counter at one. -/
theorem claim6_witness :
    (StateMachine.call unitTracer wMachine () (.str "go")).2.1.state = .str "A" ∧
    (StateMachine.call unitTracer wMachine () (.str "go")).2.1.rules = wMachine.rules ∧
    (StateMachineCore.input unitCoreTracer noopUnrecognized wCoreStay () (.str "go")).2.1.state
      = .str "A" ∧
    (StateMachineCore.input unitCoreTracer noopUnrecognized wCoreStay () (.str "go")).2.1.i_count
      = 1 := by
  refine ⟨?_, ?_, ?_, ?_⟩
  · exact claim6_stay_frame.1 Unit unitTracer wMachine () (.str "go") [] [] wRule rfl
      (by intro r' h; cases h) rfl rfl
  · exact claim6_stay_frame.2.1 Unit unitTracer wMachine () (.str "go")
  · exact claim6_stay_frame.2.2.1 Unit unitCoreTracer noopUnrecognized wCoreStay () (.str "go")
      [] [] wCRuleStay rfl (by intro r' h; cases h) rfl rfl
  · exact (claim6_stay_frame.2.2.2 Unit unitCoreTracer noopUnrecognized wCoreStay () (.str "go")).2

/-- C9: The Wildcard rule key and the Stay sentinel are one and the same
`...` value, so a rule whose literal destination is the Wildcard marker is
treated as Stay (the state is unchanged), and a call never sets the state to
the wildcard key: the wildcard bucket can never become the active state's
own bucket. -/
theorem claim9_wildcard_is_stay :
    (∀ (τ : Type) (tr : TracerFn τ) (m : StateMachine) (ts : τ) (i : PyVal),
      m.state ≠ PyVal.ellipsis →
      (StateMachine.call tr m ts i).2.1.state ≠ PyVal.ellipsis) ∧
    (∀ (τ : Type) (tr : TracerFn τ) (m : StateMachine) (ts : τ) (i : PyVal)
       (pre post : List SMRule) (r : SMRule),
      RuleTable.get m.rules m.state ++ RuleTable.get m.rules PyVal.ellipsis
        = pre ++ r :: post →
      (∀ r' ∈ pre, evalTest r'.test i = false) →
      evalTest r.test i = true →
      r.dest = DestF.lit PyVal.ellipsis →
      (StateMachine.call tr m ts i).2.1.state = m.state) := by
  constructor
  · intro τ tr m ts i hstate
    rcases call_state_cases tr m ts i with h | h
    · rw [h]; exact hstate
    · exact h
  · intro τ tr m ts i pre post r hsplit hpre hr hd
    refine call_stay tr m ts i pre post r hsplit hpre hr ?_
    rw [hd]; rfl

/-- Closed instance of C9: starting from `"A"` the state stays away from the
wildcard key, and a literal `...` destination acts as Stay. -/
theorem claim9_witness :
    (StateMachine.call unitTracer wMachine () (.str "hi")).2.1.state ≠ PyVal.ellipsis ∧
    (StateMachine.call unitTracer wMachine () (.str "go")).2.1.state = wMachine.state := by
  constructor
  · exact claim9_wildcard_is_stay.1 Unit unitTracer wMachine () (.str "hi") (by decide)
  · exact claim9_wildcard_is_stay.2 Unit unitTracer wMachine () (.str "go") [] [] wRule rfl
      (by intro r' h; cases h) rfl rfl

/-- With the event-recording tracer, a first truthy rule whose resolved
destination is neither `...` nor a table key makes the rule loop return the
response, move to that destination anyway, and emit the unknown-state
tracepoint. -/
theorem callRules_log_unknown (rules : RuleTable) (st i : PyVal)
    (pre post : List SMRule) (r : SMRule)
    (hpre : ∀ r' ∈ pre, evalTest r'.test i = false)
    (hr : evalTest r.test i = true)
    (hd : evalDest r.dest st ≠ PyVal.ellipsis)
    (hk : RuleTable.hasKey rules (evalDest r.dest st) = false) :
    ∀ l0, (callRules logTracer rules st i (pre ++ r :: post) l0).1
        = .ok (evalAct r.action i) ∧
      (callRules logTracer rules st i (pre ++ r :: post) l0).2.1
        = evalDest r.dest st ∧
      ((Tp.unknownState, ({ new_state := some (evalDest r.dest st) } : TraceVals))
        ∈ (callRules logTracer rules st i (pre ++ r :: post) l0).2.2) := by
  induction pre with
  | nil =>
    intro l0
    have hd2 : (evalDest r.dest st == PyVal.ellipsis) = false := by
      simpa using hd
    simp only [List.nil_append, callRules, logTracer, hr, if_true, hd2,
      Bool.false_eq_true, if_false, hk]
    refine ⟨by trivial, by trivial, ?_⟩
    simp
  | cons p pre ih =>
    intro l0
    have hp := hpre p (List.mem_cons_self p pre)
    simp only [List.cons_append, callRules, logTracer, hp, Bool.false_eq_true, if_false]
    exact ih (fun r' h => hpre r' (List.mem_cons_of_mem p h)) _

/-- C4: When the fired rule's resolved destination is not Stay and is absent
from the rule table, the engine emits the unknown-state tracepoint but still
sets the state to that destination (permissive; blocking is left to attached
checkpoints), and the call returns the action's response. -/
theorem claim4_permissive_unknown_state (m : StateMachine) (i : PyVal)
    (pre post : List SMRule) (r : SMRule)
    (hsplit : RuleTable.get m.rules m.state ++ RuleTable.get m.rules PyVal.ellipsis
      = pre ++ r :: post)
    (hpre : ∀ r' ∈ pre, evalTest r'.test i = false)
    (hr : evalTest r.test i = true)
    (hd : evalDest r.dest m.state ≠ PyVal.ellipsis)
    (hk : RuleTable.hasKey m.rules (evalDest r.dest m.state) = false) :
    (StateMachine.call logTracer m [] i).1 = .ok (evalAct r.action i) ∧
    (StateMachine.call logTracer m [] i).2.1.state = evalDest r.dest m.state ∧
    ((Tp.unknownState, ({ new_state := some (evalDest r.dest m.state) } : TraceVals))
      ∈ (StateMachine.call logTracer m [] i).2.2) := by
  simp only [StateMachine.call, logTracer, hsplit]
  split
  · exact callRules_log_unknown m.rules m.state i pre post r hpre hr hd hk _
  · exact callRules_log_unknown m.rules m.state i pre post r hpre hr hd hk _

/-- Closed instance of C4: the dangling `"B"` destination is entered anyway,
the response is returned, and the unknown-state event is in the log. -/
theorem claim4_witness :
    (StateMachine.call logTracer wMachineB [] (.str "go")).1 = .ok (.str "resp") ∧
    (StateMachine.call logTracer wMachineB [] (.str "go")).2.1.state = .str "B" ∧
    ((Tp.unknownState, ({ new_state := some (.str "B") } : TraceVals))
      ∈ (StateMachine.call logTracer wMachineB [] (.str "go")).2.2) :=
  claim4_permissive_unknown_state wMachineB (.str "go") [] [] wRuleB rfl
    (by intro r' h; cases h) rfl (by decide) rfl

/-- C7: With only an always-true wildcard echo rule (destination Stay) and a
current state `"A"` that has no rules of its own, evaluating `"hi"` returns
`"echo"`, leaves the state `"A"`, and emits no no-rules event. -/
theorem claim7_wildcard_scenario :
    (StateMachine.call logTracer wWildMachine [] (.str "hi")).1 = .ok (.str "echo") ∧
    (StateMachine.call logTracer wWildMachine [] (.str "hi")).2.1.state = .str "A" ∧
    Tp.noRules ∉ ((StateMachine.call logTracer wWildMachine [] (.str "hi")).2.2).map Prod.fst := by
  refine ⟨rfl, rfl, ?_⟩
  decide

/-!  Lemmas about the core rule-table operations.  -/

/-- Dict assignment never removes keys. -/
theorem alistHas_alistSet_mono (l : List (PyVal × α)) (k k0 : PyVal) (v : α)
    (h : alistHas l k0 = true) : alistHas (alistSet l k v) k0 = true := by
  cases hb : alistHas l k with
  | true =>
    unfold alistSet
    rw [if_pos hb]
    simp only [alistHas, List.any_eq_true] at h ⊢
    rcases h with ⟨p, hp, hpk⟩
    refine ⟨if p.1 == k then (k, v) else p, List.mem_map_of_mem _ hp, ?_⟩
    split
    next heq => rwa [← (beq_iff_eq.mp heq)]
    next heq => exact hpk
  | false =>
    unfold alistSet
    rw [if_neg (by simp [hb])]
    simp only [alistHas, List.any_append, Bool.or_eq_true] at h ⊢
    exact Or.inl h

/-- Dict assignment makes its key present. -/
theorem alistHas_alistSet_self (l : List (PyVal × α)) (k : PyVal) (v : α) :
    alistHas (alistSet l k v) k = true := by
  cases hb : alistHas l k with
  | true =>
    unfold alistSet
    rw [if_pos hb]
    simp only [alistHas, List.any_eq_true] at hb ⊢
    rcases hb with ⟨p, hp, hpk⟩
    exact ⟨(k, v), List.mem_map.mpr ⟨p, hp, by simp [hpk]⟩, by simp⟩
  | false =>
    unfold alistSet
    rw [if_neg (by simp [hb])]
    simp [alistHas]

/-- Every pair of an assigned dict is an old pair or carries the assigned
value. -/
theorem alistSet_pairs (l : List (PyVal × α)) (k : PyVal) (v : α)
    (p : PyVal × α) (hp : p ∈ alistSet l k v) : p ∈ l ∨ p.2 = v := by
  cases hb : alistHas l k with
  | true =>
    unfold alistSet at hp
    rw [if_pos hb] at hp
    rcases List.mem_map.mp hp with ⟨q, hq, hqe⟩
    by_cases hqk : (q.1 == k) = true
    · right; rw [← hqe]; simp [hqk]
    · left; rw [← hqe]; simpa [hqk] using hq
  | false =>
    unfold alistSet at hp
    rw [if_neg (by simp [hb])] at hp
    simp only [List.mem_append] at hp
    rcases hp with h | h
    · exact Or.inl h
    · right; simp only [List.mem_singleton] at h; rw [h]

/-- In-place value update preserves exactly the keys. -/
theorem alistHas_alistModify (l : List (PyVal × α)) (k k0 : PyVal) (f : α → α) :
    alistHas (alistModify l k f) k0 = alistHas l k0 := by
  simp only [alistHas, alistModify, List.any_map]
  congr 1
  funext p
  simp only [Function.comp]
  split
  next h => simp [beq_iff_eq.mp h]
  next h => rfl

/-- Every pair of a value-updated dict is an old pair, possibly with the
update applied to its value. -/
theorem alistModify_pairs (l : List (PyVal × α)) (k : PyVal) (f : α → α)
    (p : PyVal × α) (hp : p ∈ alistModify l k f) :
    p ∈ l ∨ ∃ q ∈ l, p = (q.1, f q.2) := by
  rcases List.mem_map.mp hp with ⟨q, hq, hqe⟩
  by_cases hqk : (q.1 == k) = true
  · right; exact ⟨q, hq, by rw [← hqe]; simp [hqk]⟩
  · left; rw [← hqe]; simpa [hqk] using hq

/-- `add` preserves the destination-closure invariant. -/
theorem add_preserves_closed (c : StateMachineCore) (state : PyVal) (test : CTestF)
    (dst : PyVal) (action : CActF) (tag : Option String)
    (h : destKeysClosed c) : destKeysClosed (c.add state test dst action tag) := by
  intro p hp r hr
  simp only [StateMachineCore.add] at hp ⊢
  set R1 := if alistHas c.rules state = true then c.rules
    else alistSet c.rules state [] with hR1
  set R2 := if alistHas R1 dst = true then R1 else alistSet R1 dst [] with hR2
  have hmono1 : ∀ k, alistHas c.rules k = true → alistHas R1 k = true := by
    intro k hk
    rw [hR1]; split
    · exact hk
    · exact alistHas_alistSet_mono _ _ _ _ hk
  have hmono2 : ∀ k, alistHas R1 k = true → alistHas R2 k = true := by
    intro k hk
    rw [hR2]; split
    · exact hk
    · exact alistHas_alistSet_mono _ _ _ _ hk
  have hdst : alistHas R2 dst = true := by
    rw [hR2]; split
    next hh => exact hh
    next hh => exact alistHas_alistSet_self _ _ _
  have hR2pairs : ∀ q : PyVal × List CRule, q ∈ R2 → q ∈ c.rules ∨ q.2 = [] := by
    intro q hq
    have hq1 : q ∈ R1 ∨ q.2 = [] := by
      rw [hR2] at hq; revert hq; split
      · exact fun hq => Or.inl hq
      · exact fun hq => alistSet_pairs _ _ _ _ hq
    rcases hq1 with hq1 | hq1
    · rw [hR1] at hq1; revert hq1; split
      · exact fun hq1 => Or.inl hq1
      · exact fun hq1 => alistSet_pairs _ _ _ _ hq1
    · exact Or.inr hq1
  have hR2closed : ∀ q : PyVal × List CRule, q ∈ R2 → ∀ r' ∈ q.2,
      alistHas R2 r'.dst = true := by
    intro q hq r' hr'
    rcases hR2pairs q hq with hq | hq
    · exact hmono2 _ (hmono1 _ (h q hq r' hr'))
    · rw [hq] at hr'; cases hr'
  rw [alistHas_alistModify]
  rcases alistModify_pairs _ _ _ _ hp with hp | ⟨q, hq, hqe⟩
  · exact hR2closed p hp r hr
  · rw [hqe] at hr
    simp only [List.mem_append, List.mem_singleton] at hr
    rcases hr with hr | hr
    · exact hR2closed q hq r hr
    · rw [hr]
      exact hdst

/-- A fresh machine's table is destination-closed (it has no rules). -/
theorem init_closed (start : PyVal) : destKeysClosed (StateMachineCore.init start) := by
  intro p hp r hr
  exfalso
  have hp2 : p.2 = [] := by
    revert hp
    simp only [StateMachineCore.init]
    intro hp
    rcases alistSet_pairs _ _ _ _ hp with hp | hp
    · rcases alistSet_pairs _ _ _ _ hp with hp | hp
      · cases hp
      · exact hp
    · exact hp
  rw [hp2] at hr
  cases hr

/-- Every table-building operation preserves destination-closure. -/
theorem applyOp_preserves_closed (c : StateMachineCore) (op : TableOp)
    (h : destKeysClosed c) : destKeysClosed (applyOp c op) := by
  cases op with
  | addOp state test dst action tag => exact add_preserves_closed c state test dst action tag h
  | buildOp state rs =>
    simp only [applyOp, StateMachineCore.build]
    induction rs generalizing c with
    | nil => exact h
    | cons b rs ih =>
      exact ih _ (add_preserves_closed c state b.test b.dst b.action b.tag h)

/-- A sequence of table-building operations preserves destination-closure. -/
theorem applyOps_preserves_closed (c : StateMachineCore) (ops : List TableOp)
    (h : destKeysClosed c) : destKeysClosed (applyOps c ops) := by
  induction ops generalizing c with
  | nil => exact h
  | cons op ops ih => exact ih (applyOp c op) (applyOp_preserves_closed c op h)

/-- C10: `add` inserts the rule's destination into the table with an empty
rule list when absent; hence after any sequence of `add`/`build` operations
on a fresh machine every rule's destination is a key of the rule table (in
particular every destination other than the `None` stay sentinel, which the
constructor had already keyed). -/
theorem claim10_dest_closed (start : PyVal) (ops : List TableOp) :
    destKeysClosed (applyOps (StateMachineCore.init start) ops) :=
  applyOps_preserves_closed (StateMachineCore.init start) ops (init_closed start)

/-- Closed instance of C10: after adding a rule `"A" → "B"`, the dangling-at
registration-time destination `"B"` is a key of the table. -/
theorem claim10_witness :
    alistHas (applyOps (StateMachineCore.init (.str "A"))
      [TableOp.addOp (.str "A") (.lit (.str "go")) (.str "B") (.lit (.str "resp"))
        Option.none]).rules (.str "B") = true := by
  have hrules : (applyOps (StateMachineCore.init (.str "A"))
      [TableOp.addOp (.str "A") (.lit (.str "go")) (.str "B") (.lit (.str "resp"))
        Option.none]).rules
      = [(.str "A",
          [{ test := .lit (.str "go"), dst := .str "B", action := .lit (.str "resp"),
             tag := Option.none }]),
         (PyVal.none, []), (.str "B", [])] := rfl
  exact claim10_dest_closed (.str "A")
    [TableOp.addOp (.str "A") (.lit (.str "go")) (.str "B") (.lit (.str "resp")) Option.none]
    ((.str "A"),
      [{ test := .lit (.str "go"), dst := .str "B", action := .lit (.str "resp"),
         tag := Option.none }])
    (by rw [hrules]; exact List.Mem.head _)
    { test := .lit (.str "go"), dst := .str "B", action := .lit (.str "resp"),
      tag := Option.none }
    (List.Mem.head _)

/-!  Lemmas for the loop-compaction run.  -/

/-- Running a concatenation of inputs runs the two halves in sequence. -/
theorem coreRun_append (tr : CTracerFn τ)
    (unrecognizedH : PyVal → PyVal → Nat → Except PyErr PyVal) :
    ∀ (l1 l2 : List PyVal) (c : StateMachineCore) (ts : τ),
    coreRun tr unrecognizedH c ts (l1 ++ l2)
      = coreRun tr unrecognizedH (coreRun tr unrecognizedH c ts l1).1
          (coreRun tr unrecognizedH c ts l1).2 l2 := by
  intro l1
  induction l1 with
  | nil => intro l2 c ts; rfl
  | cons i l1 ih =>
    intro l2 c ts
    simp only [List.cons_append, coreRun]
    exact ih l2 _ _

/-- One `"go"` input on the `wCore` self-loop machine: the response is
returned, the counter advances, and the tracer sees the follow event. -/
theorem c2_step (n : Nat) (rt : RecentTracer) :
    StateMachineCore.input recentTracerFn noopUnrecognized
      { rules := wCore.rules, state := .str "A", i_count := n } rt (.str "go")
      = (.ok (.str "resp"),
         { rules := wCore.rules, state := .str "A", i_count := n + 1 },
         rt.call (.str "go") (c2T (n + 1))) := rfl

/-- The recent tracer's depth argument: a nonnegative depth is the deque
bound. -/
theorem c2_init (K : Nat) :
    RecentTracer.init (K : Int)
      = { maxlen := some K, buffer := [], t_count := 0 } := by
  unfold RecentTracer.init
  rw [if_neg (by omega)]
  simp

/-- First follow event on an empty recent-trace buffer. -/
theorem c2_base (K : Nat) (hK : 1 ≤ K) (j : Nat) :
    RecentTracer.call { maxlen := some K, buffer := [], t_count := 0 }
        (.str "go") (c2T j)
      = { maxlen := some K, buffer := [(.str "go", c2T j, 1, 1)], t_count := 0 } := by
  have h1K : 1 - K = 0 := by omega
  simp [RecentTracer.call, dequeAppend, h1K, c2T]

/-- A follow event that loops on the state of the single retained entry
replaces it, bumping the loop count. -/
theorem c2_fold (K m j : Nat) (hK : 1 ≤ K) :
    RecentTracer.call
        { maxlen := some K, buffer := [(.str "go", c2T m, m, 1)], t_count := 0 }
        (.str "go") (c2T j)
      = { maxlen := some K, buffer := [(.str "go", c2T j, m + 1, 1)], t_count := 0 } := by
  have h1K : 1 - K = 0 := by omega
  simp [RecentTracer.call, dequeAppend, h1K, c2T]

/-- The full self-loop run: after `m ≥ 1` inputs the recent trace holds one
entry whose loop count is `m`. -/
theorem c2_run (K : Nat) (hK : 1 ≤ K) :
    ∀ m, 1 ≤ m →
    coreRun recentTracerFn noopUnrecognized wCore (RecentTracer.init (K : Int))
        (List.replicate m (.str "go"))
      = ({ rules := wCore.rules, state := .str "A", i_count := m },
         { maxlen := some K, buffer := [(.str "go", c2T m, m, 1)], t_count := 0 }) := by
  intro m hm
  induction m with
  | zero => omega
  | succ n ih =>
    rcases Nat.eq_zero_or_pos n with hn | hn
    · subst hn
      have hw : wCore = { rules := wCore.rules, state := .str "A", i_count := 0 } := rfl
      rw [c2_init, hw]
      show coreRun recentTracerFn noopUnrecognized _ _ [.str "go"] = _
      simp only [coreRun]
      rw [c2_step 0, c2_base K hK 1]
    · rw [List.replicate_succ', coreRun_append, ih hn]
      simp only [coreRun]
      rw [c2_step n, c2_fold K n (n + 1) hK]

/-- Running a concatenation of inputs through a context-traced machine runs
the two halves in sequence. -/
theorem smRunCtx_append :
    ∀ (l1 l2 : List PyVal) (m : StateMachine) (ct : ContextTracer),
    smRunCtx m ct (l1 ++ l2)
      = smRunCtx (smRunCtx m ct l1).1 (smRunCtx m ct l1).2 l2 := by
  intro l1
  induction l1 with
  | nil => intro l2 m ct; rfl
  | cons i l1 ih =>
    intro l2 m ct
    simp only [List.cons_append, smRunCtx]
    exact ih l2 _ _

/-- `ContextTracer(history=K)` for a nonnegative depth. -/
theorem ctxInit_eq (K : Nat) :
    ContextTracer.init (some (K : Int)) true
      = { context := Option.none, input_count := 0, maxlen := some K,
          history := [], compact := true } := by
  have h : ¬((K : Int) < 0) := by omega
  simp [ContextTracer.init, h]

/-- First `"go"` input of the context-traced self-loop run: a fresh context,
nothing retained yet. -/
theorem c2ctx_step1 (K : Nat) :
    StateMachine.call ctxTracerFn wMachine
      { context := Option.none, input_count := 0, maxlen := some K,
        history := [], compact := true } (.str "go")
      = (.ok (.str "resp"), wMachine,
         { context := some (c2Ctx 1 Option.none), input_count := 1, maxlen := some K,
           history := [], compact := true }) := rfl

/-- Second input: the first context is retained, and `fold_loop` does not
yet compact (one retained entry is not enough). -/
theorem c2ctx_step2 (K : Nat) (hK : 1 ≤ K) :
    StateMachine.call ctxTracerFn wMachine
      { context := some (c2Ctx 1 Option.none), input_count := 1, maxlen := some K,
        history := [], compact := true } (.str "go")
      = (.ok (.str "resp"), wMachine,
         { context := some (c2Ctx 2 Option.none), input_count := 2, maxlen := some K,
           history := [c2Ctx 1 Option.none], compact := true }) := by
  have h1 : 1 - K = 0 := by omega
  simp [StateMachine.call, ctxTracerFn, callRules, ContextTracer.call,
    ContextTracer.fold_loop, Ctx.update, dequeAppend, h1, c2Ctx, wMachine, wRule,
    RuleTable.get, RuleTable.hasKey, evalTest, evalAct, evalDest]

/-- Third input: compaction starts, with `loop_count = 2`, and the two
retained contexts are dropped. -/
theorem c2ctx_step3 (K : Nat) (hK : 2 ≤ K) :
    StateMachine.call ctxTracerFn wMachine
      { context := some (c2Ctx 2 Option.none), input_count := 2, maxlen := some K,
        history := [c2Ctx 1 Option.none], compact := true } (.str "go")
      = (.ok (.str "resp"), wMachine,
         { context := some (c2Ctx 3 (some 2)), input_count := 3, maxlen := some K,
           history := [], compact := true }) := by
  have h2 : 2 - K = 0 := by omega
  simp [StateMachine.call, ctxTracerFn, callRules, ContextTracer.call,
    ContextTracer.fold_loop, Ctx.update, dequeAppend, h2, c2Ctx, wMachine, wRule,
    RuleTable.get, RuleTable.hasKey, evalTest, evalAct, evalDest]

/-- Once compacting, each further looping input folds into the in-flight
context, leaving the retained history empty. -/
theorem c2ctx_steploop (K : Nat) (hK : 1 ≤ K) (n lc : Nat) :
    StateMachine.call ctxTracerFn wMachine
      { context := some (c2Ctx n (some lc)), input_count := n, maxlen := some K,
        history := [], compact := true } (.str "go")
      = (.ok (.str "resp"), wMachine,
         { context := some (c2Ctx (n + 1) (some (lc + 1))), input_count := n + 1,
           maxlen := some K, history := [], compact := true }) := by
  have h1 : 1 - K = 0 := by omega
  simp [StateMachine.call, ctxTracerFn, callRules, ContextTracer.call,
    ContextTracer.fold_loop, Ctx.update, dequeAppend, h1, c2Ctx, wMachine, wRule,
    RuleTable.get, RuleTable.hasKey, evalTest, evalAct, evalDest]

/-- The context-traced self-loop run: after `m ≥ 3` inputs with capacity
`K ≥ 2`, the retained history is empty and the in-flight context carries
`loop_count = m - 1`. -/
theorem c2ctx_run (K : Nat) (hK : 2 ≤ K) :
    ∀ m, 3 ≤ m →
    smRunCtx wMachine (ContextTracer.init (some (K : Int)) true)
        (List.replicate m (.str "go"))
      = (wMachine,
         { context := some (c2Ctx m (some (m - 1))), input_count := m,
           maxlen := some K, history := [], compact := true }) := by
  intro m hm
  induction m with
  | zero => omega
  | succ n ih =>
    rcases Nat.lt_or_ge n 3 with hn | hn
    · have hn3 : n = 2 := by omega
      subst hn3
      rw [ctxInit_eq]
      show smRunCtx wMachine _ [.str "go", .str "go", .str "go"] = _
      simp only [smRunCtx, c2ctx_step1 K, c2ctx_step2 K (by omega), c2ctx_step3 K hK]
    · rw [List.replicate_succ', smRunCtx_append, ih hn]
      simp only [smRunCtx]
      rw [c2ctx_steploop K (by omega) n (n - 1)]
      have hm1 : n - 1 + 1 = n := by omega
      have hm2 : n + 1 - 1 = n := by omega
      rw [hm1, hm2]

/-- C2 (amended): For `statemachine.py`'s `RecentTracer` with a fixed
capacity `K ≥ 1`, feeding `M > K` consecutive inputs that each match a
self-transition rule in the same state leaves exactly one retained snapshot,
whose loop count is `M`, and the compaction mechanism replaces the retained
entry with its loop count incremented instead of appending a new one.  For
`smallmachine.py`'s `ContextTracer` (`fold_loop`) with capacity `K ≥ 2`, the
same feed leaves the retained history deque empty and the single in-flight
snapshot carrying `loop_count = M - 1` (compaction only begins on the third
consecutive iteration). -/
theorem claim2_loop_compaction :
    (∀ K M : Nat, 1 ≤ K → K < M →
      (coreRun recentTracerFn noopUnrecognized wCore (RecentTracer.init (K : Int))
          (List.replicate M (.str "go"))).2.buffer.length = 1 ∧
      (coreRun recentTracerFn noopUnrecognized wCore (RecentTracer.init (K : Int))
          (List.replicate M (.str "go"))).2.buffer.map (fun e => e.2.2.1) = [M]) ∧
    (∀ (rt : RecentTracer) (i : PyVal) (t : TraceInfo)
       (e : PyVal × TraceInfo × Nat × Nat),
      rt.buffer.getLast? = some e →
      t.t_info.result = some true →
      (t.t_info.state == e.2.1.t_info.state && t.t_info.state == t.endState) = true →
      (rt.call i t).buffer
        = dequeAppend rt.maxlen rt.buffer.dropLast (i, t, e.2.2.1 + 1, rt.t_count + 1)) ∧
    (∀ K M : Nat, 2 ≤ K → K < M →
      (smRunCtx wMachine (ContextTracer.init (some (K : Int)) true)
          (List.replicate M (.str "go"))).2.history = [] ∧
      ((smRunCtx wMachine (ContextTracer.init (some (K : Int)) true)
          (List.replicate M (.str "go"))).2.context.getD {}).loop_count = some (M - 1)) := by
  refine ⟨?_, ?_, ?_⟩
  · intro K M hK hM
    rw [c2_run K hK M (by omega)]
    exact ⟨rfl, rfl⟩
  · intro rt i t e hlast hres hcond
    simp only [RecentTracer.call, hres, Option.getD_some, Bool.not_true,
      Bool.false_eq_true, if_false, hlast, hcond, if_true]
  · intro K M hK hM
    rw [c2ctx_run K hK M (by omega)]
    exact ⟨rfl, rfl⟩

/-- Closed instance of C2 (amended): `RecentTracer` at capacity 1 with three
looping inputs keeps one entry with loop count 3 (plus one concrete fold
step); `ContextTracer` at capacity 2 with four looping inputs retains
nothing in the deque and folds `loop_count = 3` into the in-flight
snapshot. -/
theorem claim2_witness :
    ((coreRun recentTracerFn noopUnrecognized wCore (RecentTracer.init ((1 : Nat) : Int))
        (List.replicate 3 (.str "go"))).2.buffer.length = 1 ∧
     (coreRun recentTracerFn noopUnrecognized wCore (RecentTracer.init ((1 : Nat) : Int))
        (List.replicate 3 (.str "go"))).2.buffer.map (fun e => e.2.2.1) = [3]) ∧
    (RecentTracer.call
        { maxlen := some 5, buffer := [(.str "go", c2T 1, 1, 1)], t_count := 0 }
        (.str "go") (c2T 2)).buffer
      = dequeAppend (some 5) ([(.str "go", c2T 1, 1, 1)] : List _).dropLast
          (.str "go", c2T 2, 1 + 1, 0 + 1) ∧
    ((smRunCtx wMachine (ContextTracer.init (some ((2 : Nat) : Int)) true)
        (List.replicate 4 (.str "go"))).2.history = [] ∧
     ((smRunCtx wMachine (ContextTracer.init (some ((2 : Nat) : Int)) true)
        (List.replicate 4 (.str "go"))).2.context.getD {}).loop_count = some (4 - 1)) := by
  refine ⟨?_, ?_, ?_⟩
  · exact claim2_loop_compaction.1 1 3 (by omega) (by omega)
  · exact claim2_loop_compaction.2.1
      { maxlen := some 5, buffer := [(.str "go", c2T 1, 1, 1)], t_count := 0 }
      (.str "go") (c2T 2) (.str "go", c2T 1, 1, 1) rfl rfl rfl
  · exact claim2_loop_compaction.2.2 2 4 (by omega) (by omega)

/-- C2 as frozen is false for the cited `ContextTracer.fold_loop`: with
capacity `K = 2` and `M = 3 > K` consecutive self-transition inputs, the
retained history deque holds zero snapshots, and the one in-flight snapshot
carries `loop_count = 2 = M - 1`, not `M`. -/
theorem claim2_counterexample :
    (smRunCtx wMachine (ContextTracer.init (some 2) true)
        (List.replicate 3 (.str "go"))).2.history.length = 0 ∧
    ¬ ((smRunCtx wMachine (ContextTracer.init (some 2) true)
        (List.replicate 3 (.str "go"))).2.context.getD {}).loop_count = some 3 ∧
    ((smRunCtx wMachine (ContextTracer.init (some 2) true)
        (List.replicate 3 (.str "go"))).2.context.getD {}).loop_count = some 2 := by
  refine ⟨rfl, ?_, rfl⟩
  intro h
  have h2 : (2 : Nat) = 3 := Option.some.inj h
  exact absurd h2 (by decide)

/-!  Behaviour of the factory tracer stack at each tracepoint.  -/

/-- A rule-considered event raises nothing, keeps the checkpoint wiring, and
leaves the unrecognized checkpoint's recorded state, input and input count
unchanged. -/
theorem ft_rule_step (ft : FactoryTracer) (hstd : ft.std)
    (lbl : String) (t : TestF) (a : ActF) (d : DestF) :
    (FactoryTracer.call ft .rule
      { label := some lbl, test := some t, action := some a, dest := some d }).1
        = Option.none ∧
    (FactoryTracer.call ft .rule
      { label := some lbl, test := some t, action := some a, dest := some d }).2.std ∧
    (FactoryTracer.call ft .rule
      { label := some lbl, test := some t, action := some a, dest := some d
        }).2.unrecognizedET.context.state = ft.unrecognizedET.context.state ∧
    (FactoryTracer.call ft .rule
      { label := some lbl, test := some t, action := some a, dest := some d
        }).2.unrecognizedET.context.inputVal = ft.unrecognizedET.context.inputVal ∧
    (FactoryTracer.call ft .rule
      { label := some lbl, test := some t, action := some a, dest := some d
        }).2.unrecognizedET.context.input_count
      = ft.unrecognizedET.context.input_count := by
  obtain ⟨fctx, fnr, fur, fus⟩ := ft
  obtain ⟨h1, h2, h3, h4, h5, h6⟩ := hstd
  obtain ⟨ep1, er1, n1, c1, m1, t1⟩ := fnr
  obtain ⟨ep2, er2, n2, c2, m2, t2⟩ := fur
  obtain ⟨ep3, er3, n3, c3, m3, t3⟩ := fus
  simp only at h1 h2 h3 h4 h5 h6
  subst h1 h2 h3 h4 h5 h6
  exact ⟨rfl, ⟨rfl, rfl, rfl, rfl, rfl, rfl⟩, rfl, rfl, rfl⟩

/-- The input tracepoint raises nothing, keeps the checkpoint wiring, and
resets the unrecognized checkpoint's context to the new state, input and
bumped input count. -/
theorem ft_input_step (ft : FactoryTracer) (hstd : ft.std) (st i : PyVal) :
    (FactoryTracer.call ft .tpInput { state := some st, inputVal := some i }).1
      = Option.none ∧
    (FactoryTracer.call ft .tpInput { state := some st, inputVal := some i }).2.std ∧
    (FactoryTracer.call ft .tpInput { state := some st, inputVal := some i
      }).2.unrecognizedET.context.state = some st ∧
    (FactoryTracer.call ft .tpInput { state := some st, inputVal := some i
      }).2.unrecognizedET.context.inputVal = some i ∧
    (FactoryTracer.call ft .tpInput { state := some st, inputVal := some i
      }).2.unrecognizedET.context.input_count = ft.unrecognizedET.input_count + 1 := by
  obtain ⟨fctx, fnr, fur, fus⟩ := ft
  obtain ⟨h1, h2, h3, h4, h5, h6⟩ := hstd
  obtain ⟨ep1, er1, n1, c1, m1, t1⟩ := fnr
  obtain ⟨ep2, er2, n2, c2, m2, t2⟩ := fur
  obtain ⟨ep3, er3, n3, c3, m3, t3⟩ := fus
  simp only at h1 h2 h3 h4 h5 h6
  subst h1 h2 h3 h4 h5 h6
  exact ⟨rfl, ⟨rfl, rfl, rfl, rfl, rfl, rfl⟩, rfl, rfl, rfl⟩

/-- Tracepoints that are not checkpoints raise nothing and keep the
checkpoint wiring. -/
theorem ft_step_noerr (ft : FactoryTracer) (hstd : ft.std) (tp : Tp) (v : TraceVals)
    (h1 : tp ≠ .noRules) (h2 : tp ≠ .unrecognized) (h3 : tp ≠ .unknownState) :
    (FactoryTracer.call ft tp v).1 = Option.none ∧
    (FactoryTracer.call ft tp v).2.std := by
  obtain ⟨fctx, fnr, fur, fus⟩ := ft
  obtain ⟨e1, e2, e3, e4, e5, e6⟩ := hstd
  obtain ⟨ep1, er1, n1, c1, m1, t1⟩ := fnr
  obtain ⟨ep2, er2, n2, c2, m2, t2⟩ := fur
  obtain ⟨ep3, er3, n3, c3, m3, t3⟩ := fus
  simp only at e1 e2 e3 e4 e5 e6
  subst e1 e2 e3 e4 e5 e6
  cases tp with
  | noRules => exact absurd rfl h1
  | unrecognized => exact absurd rfl h2
  | unknownState => exact absurd rfl h3
  | tpInput => exact ⟨rfl, rfl, rfl, rfl, rfl, rfl, rfl⟩
  | rule => exact ⟨rfl, rfl, rfl, rfl, rfl, rfl, rfl⟩
  | result => exact ⟨rfl, rfl, rfl, rfl, rfl, rfl, rfl⟩
  | response => exact ⟨rfl, rfl, rfl, rfl, rfl, rfl, rfl⟩
  | newState => exact ⟨rfl, rfl, rfl, rfl, rfl, rfl, rfl⟩

/-- The no-rules tracepoint makes the factory stack raise `NoRulesError`. -/
theorem ft_noRules_raises (ft : FactoryTracer) (hstd : ft.std) (v : TraceVals) :
    ∃ s, (FactoryTracer.call ft .noRules v).1 = some ⟨.noRulesError, s⟩ := by
  obtain ⟨fctx, fnr, fur, fus⟩ := ft
  obtain ⟨e1, e2, e3, e4, e5, e6⟩ := hstd
  obtain ⟨ep1, er1, n1, c1, m1, t1⟩ := fnr
  obtain ⟨ep2, er2, n2, c2, m2, t2⟩ := fur
  obtain ⟨ep3, er3, n3, c3, m3, t3⟩ := fus
  simp only at e1 e2 e3 e4 e5 e6
  subst e1 e2 e3 e4 e5 e6
  exact ⟨_, rfl⟩

/-- The unrecognized tracepoint makes the factory stack raise
`UnrecognizedInputError`, whose message embeds the state and input count
recorded in the checkpoint's context and the exact offending input. -/
theorem ft_unrecognized_raises (ft : FactoryTracer) (hstd : ft.std) (i : PyVal) :
    ∃ s, (FactoryTracer.call ft .unrecognized { inputVal := some i }).1
      = some ⟨.unrecognizedInputError,
          s ++ "'" ++ pyStr (ft.unrecognizedET.context.state.getD .none)
            ++ "' did not recognize "
            ++ toString ft.unrecognizedET.context.input_count
            ++ ": '" ++ pyStr i ++ "'"⟩ := by
  obtain ⟨fctx, fnr, fur, fus⟩ := ft
  obtain ⟨e1, e2, e3, e4, e5, e6⟩ := hstd
  obtain ⟨ep1, er1, n1, c1, m1, t1⟩ := fnr
  obtain ⟨ep2, er2, n2, c2, m2, t2⟩ := fur
  obtain ⟨ep3, er3, n3, c3, m3, t3⟩ := fus
  simp only at e1 e2 e3 e4 e5 e6
  subst e1 e2 e3 e4 e5 e6
  exact ⟨_, rfl⟩

/-- The unknown-state tracepoint makes the factory stack raise
`UnknownStateError`, whose message names the unknown destination. -/
theorem ft_unknown_raises (ft : FactoryTracer) (hstd : ft.std) (d : PyVal) :
    ∃ s, (FactoryTracer.call ft .unknownState { new_state := some d }).1
      = some ⟨.unknownStateError, s ++ "'" ++ pyStr d ++ "' is not in the ruleset"⟩ := by
  obtain ⟨fctx, fnr, fur, fus⟩ := ft
  obtain ⟨e1, e2, e3, e4, e5, e6⟩ := hstd
  obtain ⟨ep1, er1, n1, c1, m1, t1⟩ := fnr
  obtain ⟨ep2, er2, n2, c2, m2, t2⟩ := fur
  obtain ⟨ep3, er3, n3, c3, m3, t3⟩ := fus
  simp only at e1 e2 e3 e4 e5 e6
  subst e1 e2 e3 e4 e5 e6
  exact ⟨_, rfl⟩

/-- Whatever the checkpoints do, the context tracer inside the factory stack
processes every tracepoint. -/
theorem ft_call_ctx (ft : FactoryTracer) (tp : Tp) (v : TraceVals) :
    (FactoryTracer.call ft tp v).2.ctx = ft.ctx.call tp v := by
  simp only [FactoryTracer.call]
  (repeat' split) <;> rfl

/-- Loop folding never touches the input count. -/
theorem fold_loop_count (ct : ContextTracer) :
    ct.fold_loop.input_count = ct.input_count := by
  simp only [ContextTracer.fold_loop]
  (repeat' split) <;> rfl

/-- The context tracer bumps its input count exactly at the input
tracepoint. -/
theorem ctx_call_count (ct : ContextTracer) (tp : Tp) (v : TraceVals) :
    (ct.call tp v).input_count
      = if tp == .tpInput then ct.input_count + 1 else ct.input_count := by
  by_cases htp : (tp == Tp.tpInput) = true
  · simp only [ContextTracer.call, htp, if_true]
    split
    · rw [fold_loop_count]
    · rfl
  · simp only [ContextTracer.call, htp, Bool.false_eq_true, if_false]
    split
    · rw [fold_loop_count]
    · rfl

/-- Any tracer-state invariant preserved by every non-input tracepoint is
preserved by the whole rule loop (which never emits the input tracepoint). -/
theorem callRules_preserves (tr : TracerFn τ) (P : τ → Prop)
    (hstep : ∀ (tp : Tp) (v : TraceVals) (ts : τ), tp ≠ Tp.tpInput → P ts → P (tr tp v ts).2) :
    ∀ (rules : RuleTable) (st i : PyVal) (l : List SMRule) (ts : τ),
    P ts → P (callRules tr rules st i l ts).2.2 := by
  intro rules st i l
  induction l with
  | nil =>
    intro ts hP
    have h := hstep .unrecognized { inputVal := some i } ts (by decide) hP
    simp only [callRules]
    split
    next err ts1 heq => rw [heq] at h; exact h
    next ts1 heq => rw [heq] at h; exact h
  | cons r rest ih =>
    intro ts hP
    have h1 := hstep .rule { label := some r.label, test := some r.test,
                             action := some r.action, dest := some r.dest } ts (by decide) hP
    simp only [callRules]
    split
    next err ts1 heq => rw [heq] at h1; exact h1
    next ts1 heq =>
      rw [heq] at h1
      split
      next hT =>
        have h2 := hstep .result { label := some r.label, result := some (evalTest r.test i) }
          ts1 (by decide) h1
        split
        next err ts2 heq2 => rw [heq2] at h2; exact h2
        next ts2 heq2 =>
          rw [heq2] at h2
          have h3 := hstep .response { response := some (evalAct r.action i) } ts2 (by decide) h2
          split
          next err ts3 heq3 => rw [heq3] at h3; exact h3
          next ts3 heq3 =>
            rw [heq3] at h3
            have h4 := hstep .newState { new_state := some (evalDest r.dest st) } ts3
              (by decide) h3
            split
            next err ts4 heq4 => rw [heq4] at h4; exact h4
            next ts4 heq4 =>
              rw [heq4] at h4
              split
              next hd => exact h4
              next hd =>
                split
                next hk => exact h4
                next hk =>
                  have h5 := hstep .unknownState { new_state := some (evalDest r.dest st) }
                    ts4 (by decide) h4
                  split
                  next err ts5 heq5 => rw [heq5] at h5; exact h5
                  next ts5 heq5 => rw [heq5] at h5; exact h5
      next hT => exact ih ts1 h1

/-- Rules whose tests all fail are skipped: the loop reaches the rest of the
list, in a tracer state still satisfying any invariant that rule-considered
events preserve without raising. -/
theorem callRules_skip (tr : TracerFn τ) (rules : RuleTable) (st i : PyVal)
    (P : τ → Prop)
    (hstep : ∀ (lbl : String) (t : TestF) (a : ActF) (d : DestF) (ts : τ), P ts →
      (tr .rule { label := some lbl, test := some t, action := some a, dest := some d } ts).1
        = Option.none ∧
      P (tr .rule { label := some lbl, test := some t, action := some a, dest := some d } ts).2) :
    ∀ (pre rest : List SMRule), (∀ r ∈ pre, evalTest r.test i = false) →
    ∀ ts, P ts → ∃ ts1, P ts1 ∧
      callRules tr rules st i (pre ++ rest) ts = callRules tr rules st i rest ts1 := by
  intro pre
  induction pre with
  | nil => intro rest h ts hP; exact ⟨ts, hP, rfl⟩
  | cons p pre ih =>
    intro rest h ts hP
    have hp := h p (List.mem_cons_self p pre)
    obtain ⟨he, hP1⟩ := hstep p.label p.test p.action p.dest ts hP
    rcases hpair : tr .rule { label := some p.label, test := some p.test,
                              action := some p.action, dest := some p.dest } ts with ⟨e, ts1⟩
    rw [hpair] at he hP1
    simp only at he hP1
    subst he
    obtain ⟨ts2, hP2, heq⟩ := ih rest (fun r' hr' => h r' (List.mem_cons_of_mem p hr')) ts1 hP1
    refine ⟨ts2, hP2, ?_⟩
    simp only [List.cons_append, callRules, hpair, hp, Bool.false_eq_true, if_false]
    exact heq

/-- A whole rule list whose tests all fail reduces the loop to the
empty-list (unrecognized) case. -/
theorem callRules_allfail (tr : TracerFn τ) (rules : RuleTable) (st i : PyVal)
    (P : τ → Prop)
    (hstep : ∀ (lbl : String) (t : TestF) (a : ActF) (d : DestF) (ts : τ), P ts →
      (tr .rule { label := some lbl, test := some t, action := some a, dest := some d } ts).1
        = Option.none ∧
      P (tr .rule { label := some lbl, test := some t, action := some a, dest := some d } ts).2)
    (l : List SMRule) (h : ∀ r ∈ l, evalTest r.test i = false)
    (ts : τ) (hP : P ts) : ∃ ts1, P ts1 ∧
      callRules tr rules st i l ts = callRules tr rules st i [] ts1 := by
  have h2 := callRules_skip tr rules st i P hstep l [] h ts hP
  rwa [List.append_nil] at h2

/-- One engine call through the factory stack bumps the context tracer's
input count by exactly one, whatever the outcome. -/
theorem call_ft_count (m : StateMachine) (ft : FactoryTracer) (i : PyVal) :
    ((StateMachine.call factoryTracerFn m ft i).2.2).ctx.input_count
      = ft.ctx.input_count + 1 := by
  have hstep : ∀ (tp : Tp) (v : TraceVals) (ts : FactoryTracer), tp ≠ Tp.tpInput →
      ts.ctx.input_count = ft.ctx.input_count + 1 →
      (factoryTracerFn tp v ts).2.ctx.input_count = ft.ctx.input_count + 1 := by
    intro tp v ts htp hts
    have h1 : (factoryTracerFn tp v ts).2.ctx = ts.ctx.call tp v := ft_call_ctx ts tp v
    rw [h1, ctx_call_count]
    have : (tp == Tp.tpInput) = false := by
      cases tp <;> simp_all
    rw [this]
    simp only [Bool.false_eq_true, if_false]
    exact hts
  have hin : ∀ ts1 : FactoryTracer,
      factoryTracerFn .tpInput { state := some m.state, inputVal := some i } ft
        = (Option.none, ts1) ∨
      (∃ e, factoryTracerFn .tpInput { state := some m.state, inputVal := some i } ft
        = (some e, ts1)) →
      ts1.ctx.input_count = ft.ctx.input_count + 1 := by
    intro ts1 h
    have h1 := ft_call_ctx ft .tpInput { state := some m.state, inputVal := some i }
    have h2 := ctx_call_count ft.ctx .tpInput { state := some m.state, inputVal := some i }
    rcases h with h | ⟨e, h⟩ <;>
      · have hcall : FactoryTracer.call ft .tpInput
            { state := some m.state, inputVal := some i } = _ := h
        rw [hcall] at h1
        simp only at h1
        rw [h1, h2]
        simp
  simp only [StateMachine.call]
  split
  next err ts1 heq => exact hin ts1 (Or.inr ⟨err, heq⟩)
  next ts1 heq =>
    have hts1 : ts1.ctx.input_count = ft.ctx.input_count + 1 := hin ts1 (Or.inl heq)
    split
    · split
      next err ts2 heq2 =>
        have := hstep .noRules { state := some m.state } ts1 (by decide) hts1
        rw [heq2] at this
        exact this
      next ts2 heq2 =>
        have hts2 := hstep .noRules { state := some m.state } ts1 (by decide) hts1
        rw [heq2] at hts2
        exact callRules_preserves factoryTracerFn _ hstep m.rules m.state i _ ts2 hts2
    · exact callRules_preserves factoryTracerFn _ hstep m.rules m.state i _ ts1 hts1

/-- Running a list of inputs through a factory-built machine advances the
context tracer's input count by the number of inputs. -/
theorem smRun_count : ∀ (inputs : List PyVal) (m : StateMachine) (ft : FactoryTracer),
    (smRun m ft inputs).2.ctx.input_count = ft.ctx.input_count + inputs.length := by
  intro inputs
  induction inputs with
  | nil => intro m ft; simp [smRun]
  | cons i rest ih =>
    intro m ft
    simp only [smRun]
    rw [ih, call_ft_count]
    simp only [List.length_cons]
    omega

/-- Running a list of inputs through the core engine advances its input
counter by the number of inputs. -/
theorem coreRun_count (tr : CTracerFn τ)
    (unrecognizedH : PyVal → PyVal → Nat → Except PyErr PyVal) :
    ∀ (inputs : List PyVal) (c : StateMachineCore) (ts : τ),
    (coreRun tr unrecognizedH c ts inputs).1.i_count = c.i_count + inputs.length := by
  intro inputs
  induction inputs with
  | nil => intro c ts; simp [coreRun]
  | cons i rest ih =>
    intro c ts
    simp only [coreRun]
    rw [ih, (core_input_frame tr unrecognizedH c ts i).2]
    simp only [List.length_cons]
    omega

/-- C5: The input counter increments exactly once per evaluate call,
regardless of the outcome; after any sequence of N calls from a fresh
machine it equals N — for the core engine's own counter and for the factory
context tracer's counter alike. -/
theorem claim5_input_counter :
    (∀ (τ : Type) (tr : CTracerFn τ)
       (unrecognizedH : PyVal → PyVal → Nat → Except PyErr PyVal)
       (c : StateMachineCore) (ts : τ) (i : PyVal),
      (StateMachineCore.input tr unrecognizedH c ts i).2.1.i_count = c.i_count + 1) ∧
    (∀ (τ : Type) (tr : CTracerFn τ)
       (unrecognizedH : PyVal → PyVal → Nat → Except PyErr PyVal)
       (start : PyVal) (ts : τ) (inputs : List PyVal),
      (coreRun tr unrecognizedH (StateMachineCore.init start) ts inputs).1.i_count
        = inputs.length) ∧
    (∀ (st : PyVal) (rules : RuleTable) (inputs : List PyVal),
      (smRun (statemachine st rules).1 (statemachine st rules).2 inputs).2.ctx.input_count
        = inputs.length) := by
  refine ⟨?_, ?_, ?_⟩
  · intro τ tr unrecognizedH c ts i
    exact (core_input_frame tr unrecognizedH c ts i).2
  · intro τ tr unrecognizedH start ts inputs
    rw [coreRun_count]
    simp [StateMachineCore.init]
  · intro st rules inputs
    rw [smRun_count]
    simp [statemachine, ContextTracer.init]

/-- Through the factory stack, a first truthy rule whose resolved destination
is neither Stay nor a table key makes the rule loop raise
`UnknownStateError` naming that destination, before the state assignment:
the state returned is the entry state. -/
theorem callRules_ft_unknown (rules : RuleTable) (st i : PyVal)
    (pre post : List SMRule) (r : SMRule)
    (hpre : ∀ r' ∈ pre, evalTest r'.test i = false)
    (hr : evalTest r.test i = true)
    (hd : evalDest r.dest st ≠ PyVal.ellipsis)
    (hk : RuleTable.hasKey rules (evalDest r.dest st) = false)
    (ft : FactoryTracer) (hstd : ft.std) :
    ∃ s ft1, callRules factoryTracerFn rules st i (pre ++ r :: post) ft
      = (.error ⟨.unknownStateError,
            s ++ "'" ++ pyStr (evalDest r.dest st) ++ "' is not in the ruleset"⟩,
         st, ft1) := by
  obtain ⟨ft0, hstd0, heq0⟩ := callRules_skip factoryTracerFn rules st i FactoryTracer.std
    (fun lbl t a d ts hP =>
      ⟨(ft_rule_step ts hP lbl t a d).1, (ft_rule_step ts hP lbl t a d).2.1⟩)
    pre (r :: post) hpre ft hstd
  rw [heq0]
  have hd2 : (evalDest r.dest st == PyVal.ellipsis) = false := by simpa using hd
  simp only [callRules, factoryTracerFn, hr, if_true, hd2, Bool.false_eq_true, if_false, hk]
  split
  next err ts1 heq =>
    have h1 := (ft_rule_step ft0 hstd0 r.label r.test r.action r.dest).1
    rw [heq] at h1
    simp at h1
  next ts1 heq =>
    have hstd1 : ts1.std := by
      have h1 := (ft_rule_step ft0 hstd0 r.label r.test r.action r.dest).2.1
      rw [heq] at h1
      exact h1
    split
    next err ts2 heq2 =>
      have h2 := (ft_step_noerr ts1 hstd1 .result { label := some r.label, result := some true }
        (by decide) (by decide) (by decide)).1
      rw [heq2] at h2
      simp at h2
    next ts2 heq2 =>
      have hstd2 : ts2.std := by
        have h2 := (ft_step_noerr ts1 hstd1 .result { label := some r.label, result := some true }
          (by decide) (by decide) (by decide)).2
        rw [heq2] at h2
        exact h2
      split
      next err ts3 heq3 =>
        have h3 := (ft_step_noerr ts2 hstd2 .response { response := some (evalAct r.action i) }
          (by decide) (by decide) (by decide)).1
        rw [heq3] at h3
        simp at h3
      next ts3 heq3 =>
        have hstd3 : ts3.std := by
          have h3 := (ft_step_noerr ts2 hstd2 .response { response := some (evalAct r.action i) }
            (by decide) (by decide) (by decide)).2
          rw [heq3] at h3
          exact h3
        split
        next err ts4 heq4 =>
          have h4 := (ft_step_noerr ts3 hstd3 .newState
            { new_state := some (evalDest r.dest st) } (by decide) (by decide) (by decide)).1
          rw [heq4] at h4
          simp at h4
        next ts4 heq4 =>
          have hstd4 : ts4.std := by
            have h4 := (ft_step_noerr ts3 hstd3 .newState
              { new_state := some (evalDest r.dest st) } (by decide) (by decide) (by decide)).2
            rw [heq4] at h4
            exact h4
          obtain ⟨s, hs⟩ := ft_unknown_raises ts4 hstd4 (evalDest r.dest st)
          split
          next err ts5 heq5 =>
            rw [heq5] at hs
            simp only [Option.some.injEq] at hs
            refine ⟨s, ts5, ?_⟩
            rw [hs]
          next ts5 heq5 =>
            rw [heq5] at hs
            simp at hs

/-- C8: With the default checkpoints, the unknown-state error is raised by
the tracer before the engine executes the state assignment, so when the
raised error propagates out of the call the machine's state is unchanged —
error-path atomicity the permissive path does not have. -/
theorem claim8_unknown_state_atomic (m : StateMachine) (ft : FactoryTracer) (i : PyVal)
    (pre post : List SMRule) (r : SMRule)
    (hstd : ft.std)
    (hsplit : RuleTable.get m.rules m.state ++ RuleTable.get m.rules PyVal.ellipsis
      = pre ++ r :: post)
    (hpre : ∀ r' ∈ pre, evalTest r'.test i = false)
    (hr : evalTest r.test i = true)
    (hd : evalDest r.dest m.state ≠ PyVal.ellipsis)
    (hk : RuleTable.hasKey m.rules (evalDest r.dest m.state) = false) :
    (∃ e, (StateMachine.call factoryTracerFn m ft i).1 = .error e ∧
      e.kind = .unknownStateError) ∧
    (StateMachine.call factoryTracerFn m ft i).2.1.state = m.state := by
  have hne : (pre ++ r :: post).isEmpty = false := by cases pre <;> rfl
  simp only [StateMachine.call, factoryTracerFn, hsplit, hne, Bool.false_eq_true, if_false]
  split
  next err ts1 heq =>
    have h1 := (ft_step_noerr ft hstd .tpInput { state := some m.state, inputVal := some i }
      (by decide) (by decide) (by decide)).1
    rw [heq] at h1
    simp at h1
  next ts1 heq =>
    have hstd1 : ts1.std := by
      have h1 := (ft_step_noerr ft hstd .tpInput { state := some m.state, inputVal := some i }
        (by decide) (by decide) (by decide)).2
      rw [heq] at h1
      exact h1
    obtain ⟨s, ft1, hcall⟩ := callRules_ft_unknown m.rules m.state i pre post r
      hpre hr hd hk ts1 hstd1
    rw [hcall]
    exact ⟨⟨_, rfl, rfl⟩, rfl⟩

/-- C3: With the default checkpoints installed by the `statemachine` factory:
a state with an empty applicable rule list raises `NoRulesError`; an input
matched by no rule raises `UnrecognizedInputError` whose message records
that exact input and the state (and the input count); and a fired rule whose
resolved destination is absent from the rule table raises
`UnknownStateError` whose message names that destination. -/
theorem claim3_default_checkpoints :
    (∀ (m : StateMachine) (ft : FactoryTracer) (i : PyVal), ft.std →
      RuleTable.get m.rules m.state = [] →
      RuleTable.get m.rules PyVal.ellipsis = [] →
      ∃ e, (StateMachine.call factoryTracerFn m ft i).1 = .error e ∧
        e.kind = .noRulesError) ∧
    (∀ (m : StateMachine) (ft : FactoryTracer) (i : PyVal), ft.std →
      RuleTable.get m.rules m.state ++ RuleTable.get m.rules PyVal.ellipsis ≠ [] →
      (∀ r ∈ RuleTable.get m.rules m.state ++ RuleTable.get m.rules PyVal.ellipsis,
        evalTest r.test i = false) →
      ∃ s, (StateMachine.call factoryTracerFn m ft i).1
        = .error ⟨.unrecognizedInputError,
            s ++ "'" ++ pyStr m.state ++ "' did not recognize "
              ++ toString (ft.unrecognizedET.input_count + 1)
              ++ ": '" ++ pyStr i ++ "'"⟩) ∧
    (∀ (m : StateMachine) (ft : FactoryTracer) (i : PyVal)
       (pre post : List SMRule) (r : SMRule), ft.std →
      RuleTable.get m.rules m.state ++ RuleTable.get m.rules PyVal.ellipsis
        = pre ++ r :: post →
      (∀ r' ∈ pre, evalTest r'.test i = false) →
      evalTest r.test i = true →
      evalDest r.dest m.state ≠ PyVal.ellipsis →
      RuleTable.hasKey m.rules (evalDest r.dest m.state) = false →
      ∃ s, (StateMachine.call factoryTracerFn m ft i).1
        = .error ⟨.unknownStateError,
            s ++ "'" ++ pyStr (evalDest r.dest m.state) ++ "' is not in the ruleset"⟩) := by
  refine ⟨?_, ?_, ?_⟩
  · intro m ft i hstd h1 h2
    simp only [StateMachine.call, factoryTracerFn, h1, h2, List.nil_append,
      List.isEmpty_nil, if_true]
    split
    next err ts1 heq =>
      have h := (ft_step_noerr ft hstd .tpInput { state := some m.state, inputVal := some i }
        (by decide) (by decide) (by decide)).1
      rw [heq] at h
      simp at h
    next ts1 heq =>
      have hstd1 : ts1.std := by
        have h := (ft_step_noerr ft hstd .tpInput { state := some m.state, inputVal := some i }
          (by decide) (by decide) (by decide)).2
        rw [heq] at h
        exact h
      obtain ⟨s, hs⟩ := ft_noRules_raises ts1 hstd1 { state := some m.state }
      split
      next err ts2 heq2 =>
        rw [heq2] at hs
        simp only [Option.some.injEq] at hs
        refine ⟨err, rfl, ?_⟩
        rw [hs]
      next ts2 heq2 =>
        rw [heq2] at hs
        simp at hs
  · intro m ft i hstd hne hall
    have hne2 : (RuleTable.get m.rules m.state
        ++ RuleTable.get m.rules PyVal.ellipsis).isEmpty = false := by
      cases hrl : RuleTable.get m.rules m.state ++ RuleTable.get m.rules PyVal.ellipsis with
      | nil => exact absurd hrl hne
      | cons a l => rfl
    simp only [StateMachine.call, factoryTracerFn, hne2, Bool.false_eq_true, if_false]
    split
    next err ts1 heq =>
      have h := (ft_step_noerr ft hstd .tpInput { state := some m.state, inputVal := some i }
        (by decide) (by decide) (by decide)).1
      rw [heq] at h
      simp at h
    next ts1 heq =>
      have hin := ft_input_step ft hstd m.state i
      rw [heq] at hin
      obtain ⟨-, hstd1, hs1, hi1, hn1⟩ := hin
      obtain ⟨ft2, hP2, heq2⟩ := callRules_allfail factoryTracerFn m.rules m.state i
        (fun ts => ts.std ∧ ts.unrecognizedET.context.state = some m.state ∧
          ts.unrecognizedET.context.input_count = ft.unrecognizedET.input_count + 1)
        (fun lbl t a d ts hP =>
          ⟨(ft_rule_step ts hP.1 lbl t a d).1,
           (ft_rule_step ts hP.1 lbl t a d).2.1,
           ((ft_rule_step ts hP.1 lbl t a d).2.2.1).trans hP.2.1,
           ((ft_rule_step ts hP.1 lbl t a d).2.2.2.2).trans hP.2.2⟩)
        _ hall ts1 ⟨hstd1, hs1, hn1⟩
      rw [heq2]
      simp only [callRules, factoryTracerFn]
      obtain ⟨s, hs⟩ := ft_unrecognized_raises ft2 hP2.1 i
      split
      next err ts3 heq3 =>
        rw [heq3] at hs
        simp only [Option.some.injEq] at hs
        simp only [hP2.2.1, hP2.2.2, Option.getD_some] at hs
        refine ⟨s, ?_⟩
        rw [hs]
      next ts3 heq3 =>
        rw [heq3] at hs
        simp at hs
  · intro m ft i pre post r hstd hsplit hpre hr hd hk
    have hne : (pre ++ r :: post).isEmpty = false := by cases pre <;> rfl
    simp only [StateMachine.call, factoryTracerFn, hsplit, hne, Bool.false_eq_true, if_false]
    split
    next err ts1 heq =>
      have h := (ft_step_noerr ft hstd .tpInput { state := some m.state, inputVal := some i }
        (by decide) (by decide) (by decide)).1
      rw [heq] at h
      simp at h
    next ts1 heq =>
      have hstd1 : ts1.std := by
        have h := (ft_step_noerr ft hstd .tpInput { state := some m.state, inputVal := some i }
          (by decide) (by decide) (by decide)).2
        rw [heq] at h
        exact h
      obtain ⟨s, ft1, hcall⟩ := callRules_ft_unknown m.rules m.state i pre post r
        hpre hr hd hk ts1 hstd1
      rw [hcall]
      exact ⟨s, rfl⟩

/-- Closed instance of C3: the three checkpoint errors on concrete machines
built by the factory. -/
theorem claim3_witness :
    (∃ e, (StateMachine.call factoryTracerFn { state := .str "A", rules := [] }
        (statemachine (.str "A") []).2 (.str "hi")).1 = .error e ∧
      e.kind = .noRulesError) ∧
    (∃ s, (StateMachine.call factoryTracerFn wMachine
        (statemachine (.str "A") wMachine.rules).2 (.str "hi")).1
      = .error ⟨.unrecognizedInputError,
          s ++ "'" ++ pyStr wMachine.state ++ "' did not recognize "
            ++ toString ((statemachine (.str "A") wMachine.rules).2.unrecognizedET.input_count + 1)
            ++ ": '" ++ pyStr (.str "hi") ++ "'"⟩) ∧
    (∃ s, (StateMachine.call factoryTracerFn wMachineB
        (statemachine (.str "A") wMachineB.rules).2 (.str "go")).1
      = .error ⟨.unknownStateError,
          s ++ "'" ++ pyStr (evalDest wRuleB.dest wMachineB.state)
            ++ "' is not in the ruleset"⟩) := by
  refine ⟨?_, ?_, ?_⟩
  · exact claim3_default_checkpoints.1 { state := .str "A", rules := [] }
      (statemachine (.str "A") []).2 (.str "hi") ⟨rfl, rfl, rfl, rfl, rfl, rfl⟩ rfl rfl
  · exact claim3_default_checkpoints.2.1 wMachine (statemachine (.str "A") wMachine.rules).2
      (.str "hi") ⟨rfl, rfl, rfl, rfl, rfl, rfl⟩ (List.cons_ne_nil _ _)
      (by
        intro r h
        have h2 : r ∈ [wRule] := h
        rcases h2 with _ | ⟨_, h3⟩
        · rfl
        · cases h3)
  · exact claim3_default_checkpoints.2.2 wMachineB (statemachine (.str "A") wMachineB.rules).2
      (.str "go") [] [] wRuleB ⟨rfl, rfl, rfl, rfl, rfl, rfl⟩ rfl
      (by intro r h; cases h) rfl (by decide) rfl

/-- Closed instance of C8: the raised unknown-state error leaves the machine
in its entry state. -/
theorem claim8_witness :
    (∃ e, (StateMachine.call factoryTracerFn wMachineB
        (statemachine (.str "A") wMachineB.rules).2 (.str "go")).1 = .error e ∧
      e.kind = .unknownStateError) ∧
    (StateMachine.call factoryTracerFn wMachineB
        (statemachine (.str "A") wMachineB.rules).2 (.str "go")).2.1.state
      = wMachineB.state :=
  claim8_unknown_state_atomic wMachineB (statemachine (.str "A") wMachineB.rules).2 (.str "go")
    [] [] wRuleB ⟨rfl, rfl, rfl, rfl, rfl, rfl⟩ rfl (by intro r h; cases h) rfl
    (by decide) rfl
